import Mathlib

/-!
# Shallow embedding of the ARM floating-point register cache

This file embeds the floating-point register cache of a MIPS-to-ARM dynamic
recompiler (`Core/MIPS/ARM/ArmRegCacheFPU.cpp`) and proves theorems about its
mapping, flushing and invariant behaviour.

Machine code emission is modelled as a list of abstract emitter operations
(`Instr`); the cache state (`CacheState`) carries the guest-side records `mr`,
the scalar host records `ar` and the quad records `qr` as total functions on
`Nat` indices, exactly mirroring the arrays of the source.
-/

set_option autoImplicit false

namespace ArmRegCacheFPU

/-- Number of compiler scratch ("temp") guest slots (`NUM_TEMPS`). -/
def NUM_TEMPS : Nat := 16

/-- First scratch guest index: after 32 ordinary FP registers and 128 VFPU lanes. -/
def TEMP0 : Nat := 160

/-- Total guest register file size: `32 + 128 + NUM_TEMPS`. -/
def NUM_MIPSFPUREG : Nat := 176

/-- Number of host quad registers (`MAX_ARMQUADS`). -/
def MAX_ARMQUADS : Nat := 16

/-- ARM register encoding of the emitter: `R0..R15 = 0..15`, `S0..S31 = 16..47`,
`D0..D31 = 48..79`, `Q0..Q15 = 80..95`. We keep the numeric codes. -/
def S0 : Nat := 16

/-- First double register code (`D0`). -/
def D0 : Nat := 48

/-- First quad register code (`Q0`). -/
def Q0 : Nat := 80

/-- `INVALID_REG`. The enum value is `0xFFFFFFFF`; stored into the `int`
fields of the cache records it becomes `-1`, which is also how the source
compares it (`ar[i].mipsReg == -1`, `qr[q].mipsVec == INVALID_REG`). We use
`-1` throughout. -/
def INVALID_REG : Int := -1

/-- Location of a guest register (`RegMIPSLoc`). -/
inductive RegMIPSLoc where
  | ML_IMM
  | ML_ARMREG
  | ML_MEM
deriving DecidableEq

/-- Vector size of a VFPU mapping (`VectorSize`). -/
inductive VectorSize where
  | V_Invalid
  | V_Single
  | V_Pair
  | V_Triple
  | V_Quad
deriving DecidableEq

/-- Modelled from the spec: `GetNumVectorElements` (defined in the vector
utilities unit, which is not under src/) returns the logical occupied
length of a `VectorSize`, 1..4, and 0 for `V_Invalid`. -/
def GetNumVectorElements : VectorSize → Nat
  | .V_Invalid => 0
  | .V_Single => 1
  | .V_Pair => 2
  | .V_Triple => 3
  | .V_Quad => 4

/-- Numeric rank realising the C++ enum comparison `qr[q].sz > sz`.
Occupied sizes are ordered `V_Single < V_Pair < V_Triple < V_Quad` in every
layout of the enum; the comparison is only ever reached for occupied sizes
(an unoccupied quad has `vregs` filled with `0xff`, which never matches a
lane id, so its `matchCount` is zero). -/
def szRank : VectorSize → Nat
  | .V_Invalid => 0
  | .V_Single => 1
  | .V_Pair => 2
  | .V_Triple => 3
  | .V_Quad => 4

/-- Guest-side record (`FPURegMIPS`): location, host register, lane within a
quad, and the two cooperative locks. -/
structure FPURegMIPS where
  loc : RegMIPSLoc
  reg : Int
  lane : Int
  spillLock : Bool
  tempLock : Bool
deriving DecidableEq

/-- Scalar host-side record (`FPURegARM`): which guest register is held
(`-1` if none) and whether the host value differs from memory. -/
structure FPURegARM where
  mipsReg : Int
  isDirty : Bool
deriving DecidableEq

/-- Quad host-side record (`FPURegQuad`): dirty bit, owning guest vector id
(`-1` if none), logical size and the four lane occupants (`0xff` when unset). -/
structure FPURegQuad where
  isDirty : Bool
  mipsVec : Int
  sz : VectorSize
  vregs : Nat → Nat

/-- The whole cache state: the three cross-referenced tables plus the
capability configuration and the quad age counter `qTime_`. -/
structure CacheState where
  mr : Nat → FPURegMIPS
  ar : Nat → FPURegARM
  qr : Nat → FPURegQuad
  useNEONVFPU : Bool
  numARMFpuReg : Nat
  qTime : Nat

/-- Abstract emitter operations.  Registers carry their numeric ARM codes
(`sreg + S0` for scalars, `D0 + 2*q` for doubles, `Q0 + q` for quads).
`addOff` is `ADD`/`ADDI2R R0, CTXREG, offset`; the multi-lane `vld1`/`vst1`
transfer `2 * regCount` floats at the address in `R0` and post-increment it
when `update` is set (`REG_UPDATE`). -/
inductive Instr where
  | vldr (sreg : Nat) (offset : Nat)
  | vstr (sreg : Nat) (offset : Nat)
  | addOff (offset : Nat)
  | vld1lane (reg : Nat) (lane : Nat)
  | vst1lane (reg : Nat) (lane : Nat)
  | vld1 (reg : Nat) (regCount : Nat) (update : Bool)
  | vst1 (reg : Nat) (regCount : Nat) (update : Bool)
  | vmov (dst : Nat) (src : Nat)
deriving DecidableEq

/-- Pointwise update of the guest table. -/
def setMr (s : CacheState) (g : Nat) (v : FPURegMIPS) : CacheState :=
  { s with mr := fun g' => if g' = g then v else s.mr g' }

/-- Pointwise update of the scalar host table. -/
def setAr (s : CacheState) (a : Nat) (v : FPURegARM) : CacheState :=
  { s with ar := fun a' => if a' = a then v else s.ar a' }

/-- Pointwise update of the quad table. -/
def setQr (s : CacheState) (q : Nat) (v : FPURegQuad) : CacheState :=
  { s with qr := fun q' => if q' = q then v else s.qr q' }

/-- `GetMipsRegOffset` with its error flag: the byte offset of guest
register `r` inside the context structure, and whether the out-of-range
error path (`ERROR_LOG` + offset zero) was taken. -/
def GetMipsRegOffsetE (r : Nat) : Nat × Bool :=
  if r < 32 + 128 + NUM_TEMPS then ((r + 32) <<< 2, false)
  else (0, true)

/-- `GetMipsRegOffset` as used by the emission paths (offset only). -/
def GetMipsRegOffset (r : Nat) : Nat :=
  (GetMipsRegOffsetE r).1

/-- `GetMipsRegOffsetV`, the offset of VFPU lane `v` (inline in the class
header: vector lane `v` is guest register `v + 32`). -/
def GetMipsRegOffsetV (v : Nat) : Nat :=
  GetMipsRegOffset (v + 32)

/-- Mapping flags `MAP_DIRTY` / `MAP_NOINIT`, modelled from the spec as
independent booleans (the spec draws flags from `{DIRTY, NOINIT, INITIAL_VALUE}`;
the default is "load from memory, read-only"). -/
structure MapFlags where
  dirty : Bool
  noinit : Bool
deriving DecidableEq

/-- The default flag argument `mapFlags = 0`. -/
def MAP_NORMAL : MapFlags := ⟨false, false⟩

/-- `MAP_DIRTY` alone. -/
def FLAGS_DIRTY : MapFlags := ⟨true, false⟩

/-- `Start`: zero-initialise all three tables for a new block.  The source
loops set `ar[0..numARMFpuReg)`, `mr[0..NUM_MIPSFPUREG)` and
`qr[0..MAX_ARMQUADS)`; note that `mr[i].lane` is not reset. -/
def Start (s : CacheState) : CacheState :=
  { s with
    qTime := 0
    ar := fun i => if i < s.numARMFpuReg then { mipsReg := -1, isDirty := false } else s.ar i
    mr := fun i => if i < NUM_MIPSFPUREG then
        { loc := .ML_MEM, reg := INVALID_REG, lane := (s.mr i).lane,
          spillLock := false, tempLock := false }
      else s.mr i
    qr := fun i => if i < MAX_ARMQUADS then
        { isDirty := false, mipsVec := -1, sz := .V_Invalid,
          vregs := fun j => if j < 4 then 255 else (s.qr i).vregs j }
      else s.qr i }

/-- The no-SIMD allocation order: `S2..S15` (S0-S1 reserved as scratch). -/
def allocationOrder : List Nat :=
  [S0 + 2, S0 + 3,
   S0 + 4, S0 + 5, S0 + 6, S0 + 7,
   S0 + 8, S0 + 9, S0 + 10, S0 + 11,
   S0 + 12, S0 + 13, S0 + 14, S0 + 15]

/-- The NEON allocation order: `S4..S15` (Q0 reserved as temp space). -/
def allocationOrderNEON : List Nat :=
  [S0 + 4, S0 + 5, S0 + 6, S0 + 7,
   S0 + 8, S0 + 9, S0 + 10, S0 + 11,
   S0 + 12, S0 + 13, S0 + 14, S0 + 15]

/-- `GetMIPSAllocationOrder`, selected by the `useNEONVFPU` option. -/
def GetMIPSAllocationOrder (s : CacheState) : List Nat :=
  if s.useNEONVFPU then allocationOrderNEON else allocationOrder

/-- Whether the guest currently held by scalar slot seen through `mipsReg`
is spill- or temp-locked (the skip condition of the eviction scan). -/
def lockedGuest (s : CacheState) (g : Int) : Bool :=
  (s.mr g.toNat).spillLock || (s.mr g.toNat).tempLock

/-- First entry of the allocation order whose scalar host record is free
(the `ar[reg].mipsReg == -1` scan); result is the scalar index `reg`,
i.e. `allocOrder[i] - S0`. -/
def findFreeReg (s : CacheState) (order : List Nat) : Option Nat :=
  (order.map (fun x => x - S0)).find? (fun reg => (s.ar reg).mipsReg == -1)

/-- The eviction scan: first allocation-order entry not skipped by
`ar[reg].mipsReg != -1 && (spillLock || tempLock)`. -/
def findBestToSpill (s : CacheState) (order : List Nat) : Option Nat :=
  (order.map (fun x => x - S0)).find?
    (fun reg => !((s.ar reg).mipsReg != -1 && lockedGuest s (s.ar reg).mipsReg))

/-- `FlushArmReg`: flush one scalar host register by its ARM code.  The `D`
and `Q` ranges are `TODO` comments in the source and have no effect. -/
def FlushArmReg (s : CacheState) (r : Nat) : CacheState × List Instr :=
  if S0 ≤ r ∧ r ≤ S0 + 31 then
    let reg := r - S0
    if (s.ar reg).mipsReg = -1 then
      (s, [])
    else
      let g := (s.ar reg).mipsReg.toNat
      let code := if (s.ar reg).isDirty ∧ (s.mr g).loc = .ML_ARMREG
        then [Instr.vstr r (GetMipsRegOffset g)]
        else []
      let s1 := setMr s g { s.mr g with loc := .ML_MEM, reg := INVALID_REG }
      (setAr s1 reg { s1.ar reg with isDirty := false, mipsReg := -1 }, code)
  else
    (s, [])

/-- The `allocate:` loop of `MapReg`: take the first free allocation-order
entry, otherwise flush the first unlocked victim and rescan.  The rescan is
expressed with fuel; one flush always frees a slot, so any fuel ≥ 2 realises
the source loop exactly. -/
def mapRegAlloc : Nat → CacheState → Nat → MapFlags → List Nat → CacheState × List Instr × Int
  | 0, s, _, _, _ => (s, [], INVALID_REG)
  | fuel + 1, s, mipsReg, fl, order =>
    match findFreeReg s order with
    | some reg =>
      let s1 := setAr s reg { s.ar reg with isDirty := fl.dirty }
      let code := if fl.noinit = false ∧ (s.mr mipsReg).loc = .ML_MEM ∧ mipsReg < TEMP0
        then [Instr.vldr (reg + S0) (GetMipsRegOffset mipsReg)]
        else []
      let s2 := setAr s1 reg { s1.ar reg with mipsReg := (mipsReg : Int) }
      let s3 := setMr s2 mipsReg { s2.mr mipsReg with loc := .ML_ARMREG, reg := (reg : Int) }
      (s3, code, ((reg + S0 : Nat) : Int))
    | none =>
      match findBestToSpill s order with
      | some bestToSpill =>
        let p := FlushArmReg s (S0 + bestToSpill)
        let rest := mapRegAlloc fuel p.1 mipsReg fl order
        (rest.1, p.2 ++ rest.2.1, rest.2.2)
      | none =>
        (s, [], INVALID_REG)

/-- `MapReg`: return the host register of `mipsReg`, mapping it first if
necessary.  If already `ML_ARMREG`, the dirty bit is OR-ed with the flag and
the existing register returned (a mismatching cross-reference would only be
a logged error); otherwise allocate via the `allocate:` loop. -/
def MapReg (s : CacheState) (mipsReg : Nat) (fl : MapFlags) : CacheState × List Instr × Int :=
  if (s.mr mipsReg).loc = .ML_ARMREG then
    let a := (s.mr mipsReg).reg.toNat
    let s1 := if fl.dirty then setAr s a { s.ar a with isDirty := true } else s
    (s1, [], (s.mr mipsReg).reg + (S0 : Int))
  else
    mapRegAlloc (allocationOrder.length + 3) s mipsReg fl (GetMIPSAllocationOrder s)

/-- `FlushR`: write guest register `r` back to memory (if its residence is
dirty) and return it to `ML_MEM`.  A guest sitting in a lane of a quad gets
a single lane-store; note that this branch clears neither the quad's
`vregs[]` nor the scalar table, and that no branch touches the locks. -/
def FlushR (s : CacheState) (r : Nat) : CacheState × List Instr :=
  let m := s.mr r
  let p : CacheState × List Instr :=
    match m.loc with
    | .ML_IMM =>
      (s, [])
    | .ML_ARMREG =>
      if (Q0 : Int) ≤ m.reg ∧ m.reg ≤ (Q0 : Int) + 15 then
        let quad := (m.reg - (Q0 : Int)).toNat
        if (s.qr quad).isDirty then
          (s, [Instr.addOff (GetMipsRegOffset r), Instr.vst1lane (Q0 + quad) m.lane.toNat])
        else
          (s, [])
      else
        let a := m.reg.toNat
        let p1 := if (s.ar a).isDirty
          then (setAr s a { s.ar a with isDirty := false },
                [Instr.vstr (a + S0) (GetMipsRegOffset r)])
          else (s, ([] : List Instr))
        (setAr p1.1 a { p1.1.ar a with mipsReg := -1 }, p1.2)
    | .ML_MEM =>
      (s, [])
  (setMr p.1 r { p.1.mr r with loc := .ML_MEM, reg := INVALID_REG }, p.2)

/-- `FlushV`: flush VFPU lane `v` (guest register `v + 32`); inline in the
class header. -/
def FlushV (s : CacheState) (v : Nat) : CacheState × List Instr :=
  FlushR s (v + 32)

/-- `DiscardR`: return guest register `r` to memory without writing back,
clearing its host record's dirty bit and both of its locks. -/
def DiscardR (s : CacheState) (r : Nat) : CacheState :=
  let m := s.mr r
  let s1 := match m.loc with
    | .ML_IMM => s
    | .ML_ARMREG =>
      let a := m.reg.toNat
      setAr s a { s.ar a with isDirty := false, mipsReg := -1 }
    | .ML_MEM => s
  setMr s1 r
    { s1.mr r with loc := .ML_MEM, reg := INVALID_REG, tempLock := false, spillLock := false }

/-- Run a state-and-code operation over a list of indices, concatenating the
emitted code (the shape of every `for` loop that flushes or discards). -/
def runList (f : CacheState → Nat → CacheState × List Instr) :
    CacheState → List Nat → CacheState × List Instr
  | s, [] => (s, [])
  | s, x :: xs =>
    let p := f s x
    let rest := runList f p.1 xs
    (rest.1, p.2 ++ rest.2)

/-- `MappableQ`: quads Q4-Q15 belong to the quad view (Q0-Q3 back the
scalar allocation order). -/
def MappableQ (quad : Nat) : Bool :=
  quad ≥ 4

/-- `QuadAsD`: the double-register alias of a quad (`D0 + quad * 2`). -/
def QuadAsD (quad : Nat) : Nat :=
  D0 + quad * 2

/-- `QuadAsQ`: the quad register code (`Q0 + quad`). -/
def QuadAsQ (quad : Nat) : Nat :=
  Q0 + quad

/-- The store block emitted by `QFlush` for a dirty quad, by size and lane
consecutivity.  `V_Pair`/`V_Quad` combine into one multi-lane store only when
all lanes are consecutive; `V_Triple` combines into a pair store (with
post-increment) plus a lane store only when all three lanes are consecutive. -/
def qFlushStoreCode (quad : Nat) (sz : VectorSize) (v : Nat → Nat) : List Instr :=
  match sz with
  | .V_Invalid => []
  | .V_Single =>
    [.addOff (GetMipsRegOffsetV (v 0)), .vst1lane (QuadAsQ quad) 0]
  | .V_Pair =>
    if v 1 = v 0 + 1 then
      [.addOff (GetMipsRegOffsetV (v 0)), .vst1 (QuadAsD quad) 1 false]
    else
      [.addOff (GetMipsRegOffsetV (v 0)), .vst1lane (QuadAsQ quad) 0,
       .addOff (GetMipsRegOffsetV (v 1)), .vst1lane (QuadAsQ quad) 1]
  | .V_Triple =>
    if v 2 = v 1 + 1 ∧ v 1 = v 0 + 1 then
      [.addOff (GetMipsRegOffsetV (v 0)), .vst1 (QuadAsD quad) 1 true,
       .vst1lane (QuadAsQ quad) 2]
    else
      [.addOff (GetMipsRegOffsetV (v 0)), .vst1lane (QuadAsQ quad) 0,
       .addOff (GetMipsRegOffsetV (v 1)), .vst1lane (QuadAsQ quad) 1,
       .addOff (GetMipsRegOffsetV (v 2)), .vst1lane (QuadAsQ quad) 2]
  | .V_Quad =>
    if v 3 = v 2 + 1 ∧ v 2 = v 1 + 1 ∧ v 1 = v 0 + 1 then
      [.addOff (GetMipsRegOffsetV (v 0)), .vst1 (QuadAsD quad) 2 false]
    else
      [.addOff (GetMipsRegOffsetV (v 0)), .vst1lane (QuadAsQ quad) 0,
       .addOff (GetMipsRegOffsetV (v 1)), .vst1lane (QuadAsQ quad) 1,
       .addOff (GetMipsRegOffsetV (v 2)), .vst1lane (QuadAsQ quad) 2,
       .addOff (GetMipsRegOffsetV (v 3)), .vst1lane (QuadAsQ quad) 3]

/-- The guest-side clearing loop at the end of a dirty `QFlush`: each lane
occupant goes back to `ML_MEM` with `lane = -1` (the `reg` field and the
locks are left as they were). -/
def qFlushClearLanes (v : Nat → Nat) (n : Nat) (s : CacheState) : CacheState :=
  (List.range n).foldl
    (fun t i => setMr t (32 + v i) { t.mr (32 + v i) with loc := .ML_MEM, lane := -1 })
    s

/-- `QFlush`: write a dirty mappable quad back to memory with the stores of
`qFlushStoreCode`, clear its dirty bit and `mipsVec`, and return its lane
occupants to memory.  A non-mappable or non-dirty quad is left untouched —
in particular a mapped but clean quad keeps its `mipsVec`, `sz` and
`vregs[]`. -/
def QFlush (s : CacheState) (quad : Nat) : CacheState × List Instr :=
  if MappableQ quad = false then
    (s, [])
  else if (s.qr quad).isDirty then
    let code := qFlushStoreCode quad (s.qr quad).sz (s.qr quad).vregs
    let n := GetNumVectorElements (s.qr quad).sz
    let s1 := setQr s quad { s.qr quad with isDirty := false, mipsVec := -1 }
    (qFlushClearLanes (s.qr quad).vregs n s1, code)
  else
    (s, [])

/-- `FlushAll`: discard all temps, flush all quads, flush all guests.  The
closing walk over the scalar table is only a logged sanity check and does
not modify state. -/
def FlushAll (s : CacheState) : CacheState × List Instr :=
  let p1 := runList (fun t i => (DiscardR t i, [])) s (List.range' TEMP0 NUM_TEMPS)
  let p2 := runList QFlush p1.1 (List.range MAX_ARMQUADS)
  let p3 := runList FlushR p2.1 (List.range NUM_MIPSFPUREG)
  (p3.1, p1.2 ++ p2.2 ++ p3.2)

/-- Length of the initial agreeing run of `qr[q].vregs` against the wanted
lanes (`matchCount` of the `QMapReg` scan). -/
def matchCount (qv : Nat → Nat) (vregs : Nat → Nat) (n : Nat) : Nat :=
  ((List.range n).takeWhile (fun i => qv i == vregs i)).length

/-- The `QMapReg` match scan: first mappable quad whose `vregs` agree with a
non-empty initial run of the wanted lanes (any such quad makes the loop body
return, extending first if the run is shorter than `n`). -/
def qFindMatch (s : CacheState) (vregs : Nat → Nat) (n : Nat) : Option Nat :=
  (List.range 16).find?
    (fun q => MappableQ q && decide (0 < matchCount (s.qr q).vregs vregs n))

/-- Lane loads emitted when extending a matched quad from `mc` up to `n`
occupied lanes. -/
def qExtendCode (q : Nat) (vregs : Nat → Nat) (mc n : Nat) : List Instr :=
  (List.range' mc (n - mc)).foldr
    (fun i acc =>
      Instr.addOff (GetMipsRegOffsetV (vregs i)) :: Instr.vld1lane (QuadAsQ q) i :: acc)
    []

/-- `qr[q].vregs[i] = vregs[i]` for the extended lanes `mc ≤ i < n`. -/
def qExtendVregs (s : CacheState) (q : Nat) (vregs : Nat → Nat) (mc n : Nat) : CacheState :=
  (List.range' mc (n - mc)).foldl
    (fun t i => setQr t q
      { t.qr q with vregs := fun j => if j = i then vregs i else (t.qr q).vregs j })
    s

/-- Common tail of the `QMapReg` match path: OR in the dirty flag, set the
new size, and return the double alias for `V_Single`/`V_Pair` or the quad
register for `V_Triple`/`V_Quad`.  (`V_Invalid` never reaches this switch;
the source has no return for it.) -/
def qMapMatchFinish (s : CacheState) (q : Nat) (sz : VectorSize) (fl : MapFlags)
    (code : List Instr) : CacheState × List Instr × Int :=
  let s1 := if fl.dirty then setQr s q { s.qr q with isDirty := true } else s
  let s2 := setQr s1 q { s1.qr q with sz := sz }
  let ret : Int := match sz with
    | .V_Single | .V_Pair => (QuadAsD q : Nat)
    | .V_Triple | .V_Quad => (QuadAsQ q : Nat)
    | .V_Invalid => INVALID_REG
  (s2, code, ret)

/-- First free mappable quad (`qr[q].mipsVec == INVALID_REG`). -/
def qFindFreeQuad (s : CacheState) : Option Nat :=
  (List.range 16).find? (fun q => MappableQ q && (s.qr q).mipsVec == -1)

/-- The `retry:` loop of `QMapReg`.  When no mappable quad is free the
source only logs "Failed finding a free quad. Zapping one and continuing."
and jumps back to `retry:` without changing any state (the flush is a
`TODO`), so the loop is modelled with fuel: `none` means it never finds a
quad, however much fuel it is given. -/
def qAllocRetry (s : CacheState) : Nat → Option Nat
  | 0 => none
  | fuel + 1 =>
    match qFindFreeQuad s with
    | some q => some q
    | none => qAllocRetry s fuel

/-- The load block of a freshly allocated quad: a single multi-lane load
when the lanes are consecutive (for `V_Triple` the source only checks the
first two lanes and follows the pair load with a lane load), otherwise one
lane load per element, each preceded by an address add. -/
def qLoadCode (quad : Nat) (sz : VectorSize) (vregs : Nat → Nat) : List Instr :=
  match sz with
  | .V_Invalid => []
  | .V_Single =>
    [.addOff (GetMipsRegOffsetV (vregs 0)), .vld1lane (QuadAsQ quad) 0]
  | .V_Pair =>
    if vregs 1 = vregs 0 + 1 then
      [.addOff (GetMipsRegOffsetV (vregs 0)), .vld1 (QuadAsD quad) 1 false]
    else
      [.addOff (GetMipsRegOffsetV (vregs 0)), .vld1lane (QuadAsQ quad) 0,
       .addOff (GetMipsRegOffsetV (vregs 1)), .vld1lane (QuadAsQ quad) 1]
  | .V_Triple =>
    if vregs 1 = vregs 0 + 1 then
      [.addOff (GetMipsRegOffsetV (vregs 0)), .vld1 (QuadAsD quad) 1 true,
       .vld1lane (QuadAsQ quad) 2]
    else
      [.addOff (GetMipsRegOffsetV (vregs 0)), .vld1lane (QuadAsQ quad) 0,
       .addOff (GetMipsRegOffsetV (vregs 1)), .vld1lane (QuadAsQ quad) 1,
       .addOff (GetMipsRegOffsetV (vregs 2)), .vld1lane (QuadAsQ quad) 2]
  | .V_Quad =>
    if vregs 3 = vregs 2 + 1 ∧ vregs 2 = vregs 1 + 1 ∧ vregs 1 = vregs 0 + 1 then
      [.addOff (GetMipsRegOffsetV (vregs 0)), .vld1 (QuadAsD quad) 2 false]
    else
      [.addOff (GetMipsRegOffsetV (vregs 0)), .vld1lane (QuadAsQ quad) 0,
       .addOff (GetMipsRegOffsetV (vregs 1)), .vld1lane (QuadAsQ quad) 1,
       .addOff (GetMipsRegOffsetV (vregs 2)), .vld1lane (QuadAsQ quad) 2,
       .addOff (GetMipsRegOffsetV (vregs 3)), .vld1lane (QuadAsQ quad) 3]

/-- The closing registration loop of the fresh-allocation path: cross the
references both ways for each lane and set the quad's dirty bit from the
flags. -/
def qRegisterLanes (s : CacheState) (quad : Nat) (vregs : Nat → Nat) (fl : MapFlags)
    (n : Nat) : CacheState :=
  (List.range n).foldl
    (fun t i =>
      let t1 := setMr t (32 + vregs i)
        { t.mr (32 + vregs i) with loc := .ML_ARMREG, reg := (QuadAsQ quad : Nat), lane := (i : Int) }
      setQr t1 quad
        { t1.qr quad with
          vregs := fun j => if j = i then vregs i else (t1.qr quad).vregs j,
          isDirty := fl.dirty })
    s

/-- `QMapReg`: map a guest vector into a quad.  The lane expansion
`GetVectorRegs(vregs, sz, vreg)` lives in the vector-utilities unit (not
under src/), so the expansion is taken as the argument `vregs`, modelled
from the spec ("expand to the list of guest lane ids `L[0..n-1]`"); claims
quantify over it.  A `none` result models the source's non-terminating
`retry:` loop (no free quad and nothing is ever flushed). -/
def QMapReg (s0 : CacheState) (vreg : Int) (sz : VectorSize) (vregs : Nat → Nat)
    (fl : MapFlags) : Option (CacheState × List Instr × Int) :=
  let s := { s0 with qTime := s0.qTime + 1 }
  let n := GetNumVectorElements sz
  match qFindMatch s vregs n with
  | some q =>
    let mc := matchCount ((s.qr q).vregs) vregs n
    if mc < n then
      -- Old was shorter: extend by loading the missing elements.
      some (qMapMatchFinish (qExtendVregs s q vregs mc n) q sz fl (qExtendCode q vregs mc n))
    else if szRank (s.qr q).sz > szRank sz then
      -- Discard overshooting elements.
      let p := runList (fun t j => FlushV t ((t.qr q).vregs j)) s
        (List.range' n (GetNumVectorElements (s.qr q).sz - n))
      some (qMapMatchFinish p.1 q sz fl p.2)
    else
      some (qMapMatchFinish s q sz fl [])
  | none =>
    match qAllocRetry s 16 with
    | none => none
    | some quad =>
      -- If parts of our register are elsewhere, flush them before reloading —
      -- but only when mapping dirty.
      let p1 := if fl.dirty
        then runList (fun t i => FlushV t (vregs i)) s (List.range n)
        else (s, [])
      -- Flush out anything left behind in the fresh quad.
      let p2 := QFlush p1.1 quad
      let s3 := setQr p2.1 quad { p2.1.qr quad with sz := sz, mipsVec := vreg }
      let c3 := if fl.noinit then [] else qLoadCode quad sz vregs
      let s4 := qRegisterLanes s3 quad vregs fl n
      some (s4, p1.2 ++ p2.2 ++ c3, ((QuadAsQ quad : Nat) : Int))

/-- Memory slots written by a code sequence, in order.  The first component
tracks the address register `R0` set by `addOff` and post-incremented by
`vld1`/`vst1` with `REG_UPDATE` (`8 * regCount` bytes = `2 * regCount`
floats); scalar stores carry their own offset. -/
def writesFrom : Nat → List Instr → List Nat
  | _, [] => []
  | _, .addOff o :: rest => writesFrom o rest
  | r0, .vldr _ _ :: rest => writesFrom r0 rest
  | r0, .vstr _ off :: rest => off :: writesFrom r0 rest
  | r0, .vld1lane _ _ :: rest => writesFrom r0 rest
  | r0, .vst1lane _ _ :: rest => r0 :: writesFrom r0 rest
  | r0, .vld1 _ cnt upd :: rest => writesFrom (if upd then r0 + 8 * cnt else r0) rest
  | r0, .vst1 _ cnt upd :: rest =>
    (List.range (2 * cnt)).map (fun i => r0 + 4 * i) ++
      writesFrom (if upd then r0 + 8 * cnt else r0) rest
  | r0, .vmov _ _ :: rest => writesFrom r0 rest

/-- The value of `R0` after running a code sequence, for composing
`writesFrom` across concatenation. -/
def r0After : Nat → List Instr → Nat
  | r0, [] => r0
  | _, .addOff o :: rest => r0After o rest
  | r0, .vld1 _ cnt upd :: rest => r0After (if upd then r0 + 8 * cnt else r0) rest
  | r0, .vst1 _ cnt upd :: rest => r0After (if upd then r0 + 8 * cnt else r0) rest
  | r0, .vldr _ _ :: rest => r0After r0 rest
  | r0, .vstr _ _ :: rest => r0After r0 rest
  | r0, .vld1lane _ _ :: rest => r0After r0 rest
  | r0, .vst1lane _ _ :: rest => r0After r0 rest
  | r0, .vmov _ _ :: rest => r0After r0 rest

/-- Whether guest `g`'s current residence is dirty: a scalar-mapped guest
reads its scalar host record's dirty bit, a quad-mapped guest its quad's. -/
def residentDirty (s : CacheState) (g : Nat) : Bool :=
  (s.mr g).loc = .ML_ARMREG &&
    (if (Q0 : Int) ≤ (s.mr g).reg ∧ (s.mr g).reg ≤ (Q0 : Int) + 15
     then (s.qr ((s.mr g).reg - (Q0 : Int)).toNat).isDirty
     else (s.ar (s.mr g).reg.toNat).isDirty)

/-- Concatenate per-index code or write lists. -/
def joinCode {α : Type} (f : Nat → List α) : List Nat → List α
  | [] => []
  | x :: xs => f x ++ joinCode f xs

/-- Store instructions (scalar store, lane store, multi-lane store). -/
def isStore : Instr → Bool
  | .vstr _ _ => true
  | .vst1lane _ _ => true
  | .vst1 _ _ _ => true
  | _ => false

/-- Number of store instructions in a code sequence. -/
def storeCount (code : List Instr) : Nat :=
  code.countP isStore

/-- How many scalar host records name guest `g`. -/
def scalarNames (s : CacheState) (g : Nat) : Nat :=
  (List.range 32).countP (fun a => (s.ar a).mipsReg == (g : Int))

/-- How many occupied quad lanes name guest `g` (lane `i` of an occupied
quad holds guest `32 + vregs i`). -/
def quadLaneNames (s : CacheState) (g : Nat) : Nat :=
  (joinCode (fun q =>
    if (s.qr q).mipsVec = -1 then []
    else (List.range (GetNumVectorElements (s.qr q).sz)).filter
      (fun i => (s.qr q).vregs i + 32 == g)) (List.range 16)).length

/-- The at-most-one-place invariant of the spec: every guest register index
is named by at most one scalar host record and at most one occupied quad
lane, never both at once. -/
def atMostOnePlace (s : CacheState) : Prop :=
  ∀ g, g < NUM_MIPSFPUREG → scalarNames s g + quadLaneNames s g ≤ 1

instance atMostOnePlaceDec (s : CacheState) : Decidable (atMostOnePlace s) := by
  unfold atMostOnePlace
  exact inferInstance

/-- The code `FlushR` emits for guest `g`, read off a fixed state. -/
def FlushRCode (t : CacheState) (g : Nat) : List Instr :=
  match (t.mr g).loc with
  | .ML_ARMREG =>
    if (Q0 : Int) ≤ (t.mr g).reg ∧ (t.mr g).reg ≤ (Q0 : Int) + 15 then
      if (t.qr ((t.mr g).reg - (Q0 : Int)).toNat).isDirty then
        [Instr.addOff (GetMipsRegOffset g),
         Instr.vst1lane (Q0 + ((t.mr g).reg - (Q0 : Int)).toNat) (t.mr g).lane.toNat]
      else []
    else
      if (t.ar (t.mr g).reg.toNat).isDirty then
        [Instr.vstr ((t.mr g).reg.toNat + S0) (GetMipsRegOffset g)]
      else []
  | _ => []

/-- The code `QFlush` emits for quad `q`, read off a fixed state. -/
def QFlushCodeOf (t : CacheState) (q : Nat) : List Instr :=
  if MappableQ q = true ∧ (t.qr q).isDirty = true then
    qFlushStoreCode q (t.qr q).sz (t.qr q).vregs
  else []

/-- Scalar-residence well-formedness of guest `g`: its `reg` is a scalar
index below 32 and the scalar record points back at `g`. -/
def scalarRes (s : CacheState) (g : Nat) : Prop :=
  0 ≤ (s.mr g).reg ∧ (s.mr g).reg < 32 ∧ (s.ar (s.mr g).reg.toNat).mipsReg = (g : Int)

/-- Quad-residence of guest `g`: its `reg` is in the `Q0..Q15` code range. -/
def quadRes (s : CacheState) (g : Nat) : Prop :=
  (Q0 : Int) ≤ (s.mr g).reg ∧ (s.mr g).reg ≤ (Q0 : Int) + 15

/-- What the temp-discard pass needs: every mapped temp is scalar-resident
with a correct backpointer. -/
def WFtemps (s : CacheState) : Prop :=
  ∀ g, TEMP0 ≤ g → g < NUM_MIPSFPUREG → (s.mr g).loc = .ML_ARMREG → scalarRes s g

/-- What the quad-flush pass needs: every dirty quad is mappable and its
occupied lanes are VFPU lanes whose guest records point back at the quad and
lane. -/
def WFquads (s : CacheState) : Prop :=
  ∀ q, q < 16 → (s.qr q).isDirty = true →
    MappableQ q = true ∧
    ∀ i, i < GetNumVectorElements (s.qr q).sz →
      (s.qr q).vregs i < 128 ∧
      (s.mr ((s.qr q).vregs i + 32)).loc = .ML_ARMREG ∧
      (s.mr ((s.qr q).vregs i + 32)).reg = ((Q0 + q : Nat) : Int) ∧
      (s.mr ((s.qr q).vregs i + 32)).lane = (i : Int)

/-- What the guest-flush pass needs: mapped guests are scalar-resident with
backpointer or quad-resident; occupied scalar slots point back; free scalar
slots are clean; and every quad is already clean. -/
def WFscalars (s : CacheState) : Prop :=
  (∀ g, g < NUM_MIPSFPUREG → (s.mr g).loc = .ML_ARMREG → scalarRes s g ∨ quadRes s g) ∧
  (∀ a, a < 32 →
    ((s.ar a).mipsReg = -1 → (s.ar a).isDirty = false) ∧
    ((s.ar a).mipsReg ≠ -1 →
      0 ≤ (s.ar a).mipsReg ∧ (s.ar a).mipsReg < (NUM_MIPSFPUREG : Int) ∧
      (s.mr (s.ar a).mipsReg.toNat).loc = .ML_ARMREG ∧
      (s.mr (s.ar a).mipsReg.toNat).reg = (a : Int))) ∧
  (∀ q, q < 16 → (s.qr q).isDirty = false)

/-- Slot backpointer discipline (the scalar half of `WFscalars`). -/
def ARBack (t : CacheState) : Prop :=
  ∀ a, a < 32 → (t.ar a).mipsReg ≠ -1 →
    0 ≤ (t.ar a).mipsReg ∧ (t.ar a).mipsReg < (NUM_MIPSFPUREG : Int) ∧
    (t.mr (t.ar a).mipsReg.toNat).loc = .ML_ARMREG ∧
    (t.mr (t.ar a).mipsReg.toNat).reg = (a : Int)

/-- Well-formed cache states: consistent two-way cross-references, no
immediates, no guest in two host slots, locked-down index ranges.  This is
the reachable-state discipline the cache maintains between operations. -/
def WF (s : CacheState) : Prop :=
  (∀ g, g < NUM_MIPSFPUREG →
    (s.mr g).loc ≠ .ML_IMM ∧
    ((s.mr g).loc = .ML_ARMREG →
      (scalarRes s g ∧ ¬quadRes s g) ∨
      (quadRes s g ∧
        4 ≤ ((s.mr g).reg - (Q0 : Int)).toNat ∧
        (s.qr (((s.mr g).reg - (Q0 : Int)).toNat)).mipsVec ≠ -1 ∧
        32 ≤ g ∧ g < TEMP0 ∧
        0 ≤ (s.mr g).lane ∧
        (s.mr g).lane <
          (GetNumVectorElements ((s.qr (((s.mr g).reg - (Q0 : Int)).toNat)).sz) : Int) ∧
        (s.qr (((s.mr g).reg - (Q0 : Int)).toNat)).vregs (s.mr g).lane.toNat + 32 = g))) ∧
  (∀ a, a < 32 →
    ((s.ar a).mipsReg = -1 → (s.ar a).isDirty = false) ∧
    ((s.ar a).mipsReg ≠ -1 →
      0 ≤ (s.ar a).mipsReg ∧ (s.ar a).mipsReg < (NUM_MIPSFPUREG : Int) ∧
      (s.mr (s.ar a).mipsReg.toNat).loc = .ML_ARMREG ∧
      (s.mr (s.ar a).mipsReg.toNat).reg = (a : Int))) ∧
  (∀ q, q < 16 →
    ((s.qr q).mipsVec = -1 → (s.qr q).isDirty = false) ∧
    (q < 4 → (s.qr q).mipsVec = -1) ∧
    ((s.qr q).mipsVec ≠ -1 →
      1 ≤ GetNumVectorElements (s.qr q).sz ∧
      ∀ i, i < GetNumVectorElements (s.qr q).sz →
        (s.qr q).vregs i < 128 ∧
        (s.mr ((s.qr q).vregs i + 32)).loc = .ML_ARMREG ∧
        (s.mr ((s.qr q).vregs i + 32)).reg = ((Q0 + q : Nat) : Int) ∧
        (s.mr ((s.qr q).vregs i + 32)).lane = (i : Int)))

instance WFDec (s : CacheState) : Decidable (WF s) := by
  unfold WF scalarRes quadRes
  refine @instDecidableAnd _ _ ?_ (@instDecidableAnd _ _ ?_ ?_)
  · exact inferInstance
  · exact inferInstance
  · exact inferInstance

/-- A fresh cache state: `Start` applied to a fully reset table set, without
NEON (16 scalar host registers, allocation order `S2..S15`). -/
def state0 : CacheState :=
  Start
    { mr := fun _ => { loc := .ML_MEM, reg := -1, lane := -1, spillLock := false, tempLock := false }
      ar := fun _ => { mipsReg := -1, isDirty := false }
      qr := fun _ => { isDirty := false, mipsVec := -1, sz := .V_Invalid, vregs := fun _ => 255 }
      useNEONVFPU := false
      numARMFpuReg := 16
      qTime := 0 }

/-- A fresh cache state in NEON mode (32 scalar host registers, allocation
order `S4..S15`, quads usable). -/
def state0N : CacheState :=
  Start
    { mr := fun _ => { loc := .ML_MEM, reg := -1, lane := -1, spillLock := false, tempLock := false }
      ar := fun _ => { mipsReg := -1, isDirty := false }
      qr := fun _ => { isDirty := false, mipsVec := -1, sz := .V_Invalid, vregs := fun _ => 255 }
      useNEONVFPU := true
      numARMFpuReg := 32
      qTime := 0 }

/-- A cache state whose entire (no-NEON) allocation order `S2..S15` is
occupied by spill-locked guests `0..13`. -/
def c4State : CacheState :=
  { mr := fun gg =>
      if gg < 14 then
        { loc := .ML_ARMREG, reg := ((gg + 2 : Nat) : Int), lane := -1, spillLock := true, tempLock := false }
      else
        { loc := .ML_MEM, reg := -1, lane := -1, spillLock := false, tempLock := false }
    ar := fun a =>
      if 2 ≤ a ∧ a < 16 then { mipsReg := ((a - 2 : Nat) : Int), isDirty := false }
      else { mipsReg := -1, isDirty := false }
    qr := fun _ => { isDirty := false, mipsVec := -1, sz := .V_Invalid, vregs := fun _ => 255 }
    useNEONVFPU := false
    numARMFpuReg := 16
    qTime := 0 }

/-- A NEON-mode cache state in which every mappable quad is occupied
(`mipsVec = 0`), so the quad allocator can never find a free quad. -/
def c2FullState : CacheState :=
  { mr := fun _ => { loc := .ML_MEM, reg := -1, lane := -1, spillLock := false, tempLock := false }
    ar := fun _ => { mipsReg := -1, isDirty := false }
    qr := fun _ => { isDirty := false, mipsVec := 0, sz := .V_Quad, vregs := fun _ => 200 }
    useNEONVFPU := true
    numARMFpuReg := 32
    qTime := 0 }

/-- A NEON-mode cache state with a dirty `V_Triple` on quad 4 whose first
two lanes (10, 11) are consecutive but whose third lane (20) is not. -/
def c8State : CacheState :=
  { mr := fun _ => { loc := .ML_MEM, reg := -1, lane := -1, spillLock := false, tempLock := false }
    ar := fun _ => { mipsReg := -1, isDirty := false }
    qr := fun q =>
      if q = 4 then
        { isDirty := true, mipsVec := 2, sz := .V_Triple,
          vregs := fun i => if i = 0 then 10 else if i = 1 then 11 else if i = 2 then 20 else 255 }
      else { isDirty := false, mipsVec := -1, sz := .V_Invalid, vregs := fun _ => 255 }
    useNEONVFPU := true
    numARMFpuReg := 32
    qTime := 0 }

/-! ### Projection lemmas for the table updates -/

theorem setMr_mr (s : CacheState) (g : Nat) (v : FPURegMIPS) (g' : Nat) :
    (setMr s g v).mr g' = if g' = g then v else s.mr g' := rfl

theorem setMr_ar (s : CacheState) (g : Nat) (v : FPURegMIPS) :
    (setMr s g v).ar = s.ar := rfl

theorem setMr_qr (s : CacheState) (g : Nat) (v : FPURegMIPS) :
    (setMr s g v).qr = s.qr := rfl

theorem setAr_ar (s : CacheState) (a : Nat) (v : FPURegARM) (a' : Nat) :
    (setAr s a v).ar a' = if a' = a then v else s.ar a' := rfl

theorem setAr_mr (s : CacheState) (a : Nat) (v : FPURegARM) :
    (setAr s a v).mr = s.mr := rfl

theorem setAr_qr (s : CacheState) (a : Nat) (v : FPURegARM) :
    (setAr s a v).qr = s.qr := rfl

theorem setQr_qr (s : CacheState) (q : Nat) (v : FPURegQuad) (q' : Nat) :
    (setQr s q v).qr q' = if q' = q then v else s.qr q' := rfl

theorem setQr_mr (s : CacheState) (q : Nat) (v : FPURegQuad) :
    (setQr s q v).mr = s.mr := rfl

theorem setQr_ar (s : CacheState) (q : Nat) (v : FPURegQuad) :
    (setQr s q v).ar = s.ar := rfl

/-! ### C9: the guest-register offset function -/

/-- C9: the guest-register offset function returns `(r + 32) * 4` for every
guest index in the valid domain `[0, 32 + 128 + NUM_TEMPS)`, and for any
index outside that domain it takes the error path and returns offset zero. -/
theorem c9_offset_function (r : Nat) :
    (r < 32 + 128 + NUM_TEMPS → GetMipsRegOffsetE r = ((r + 32) * 4, false)) ∧
    (32 + 128 + NUM_TEMPS ≤ r → GetMipsRegOffsetE r = (0, true)) := by
  constructor
  · intro h
    simp [GetMipsRegOffsetE, if_pos h, Nat.shiftLeft_eq]
  · intro h
    simp only [GetMipsRegOffsetE, if_neg (Nat.not_lt.mpr h)]

/-- Witness for C9 at the concrete indices 5 (in range) and 200 (out of
range). -/
theorem c9_offset_function_witness :
    (5 < 32 + 128 + NUM_TEMPS ∧ GetMipsRegOffsetE 5 = ((5 + 32) * 4, false)) ∧
    (32 + 128 + NUM_TEMPS ≤ 200 ∧ GetMipsRegOffsetE 200 = (0, true)) :=
  ⟨⟨by decide, (c9_offset_function 5).1 (by decide)⟩,
   ⟨by decide, (c9_offset_function 200).2 (by decide)⟩⟩

/-! ### C10: DiscardR clears the locks, FlushR preserves them -/

/-- `DiscardR` rewrites the discarded guest's record to memory state with
both locks cleared, whatever branch was taken. -/
theorem DiscardR_mr_eq (s : CacheState) (r : Nat) :
    (DiscardR s r).mr r =
      { s.mr r with loc := .ML_MEM, reg := INVALID_REG, tempLock := false, spillLock := false } := by
  cases h : (s.mr r).loc <;> simp [DiscardR, h, setMr, setAr]

/-- `FlushR` rewrites the flushed guest's record to memory state, leaving
lane and both locks untouched, whatever branch was taken. -/
theorem FlushR_mr_eq (s : CacheState) (r : Nat) :
    (FlushR s r).1.mr r = { s.mr r with loc := .ML_MEM, reg := INVALID_REG } := by
  cases h : (s.mr r).loc <;>
    simp only [FlushR, h] <;>
    (try split) <;>
    (try split) <;>
    simp [setMr, setAr]

/-- C10: `DiscardR r` always clears both the spill lock and the temp lock of
guest `r` while returning it to memory, whereas `FlushR r` leaves both locks
of `r` exactly as they were while returning it to memory. -/
theorem c10_discard_clears_locks_flush_keeps (s : CacheState) (r : Nat) :
    ((DiscardR s r).mr r).spillLock = false ∧
    ((DiscardR s r).mr r).tempLock = false ∧
    ((DiscardR s r).mr r).loc = .ML_MEM ∧
    ((DiscardR s r).mr r).reg = INVALID_REG ∧
    ((FlushR s r).1.mr r).spillLock = (s.mr r).spillLock ∧
    ((FlushR s r).1.mr r).tempLock = (s.mr r).tempLock ∧
    ((FlushR s r).1.mr r).loc = .ML_MEM ∧
    ((FlushR s r).1.mr r).reg = INVALID_REG := by
  refine ⟨?_, ?_, ?_, ?_, ?_, ?_, ?_, ?_⟩ <;>
    simp [DiscardR_mr_eq, FlushR_mr_eq]

/-! ### The scalar mapping engine -/

/-- In-domain offsets evaluate to `(r + 32) * 4`. -/
theorem GetMipsRegOffset_eq (r : Nat) (h : r < NUM_MIPSFPUREG) :
    GetMipsRegOffset r = (r + 32) * 4 := by
  have h' : r < 32 + 128 + NUM_TEMPS := by
    simpa [NUM_TEMPS] using h
  simp [GetMipsRegOffset, GetMipsRegOffsetE, h', Nat.shiftLeft_eq]

/-- Behaviour of `MapReg` on a guest currently in memory when the allocation
order still has a free entry `r`: the first free entry is taken, a load is
emitted unless `NOINIT` is set or the guest is a scratch slot, and only the
chosen records change. -/
theorem MapReg_mem_free (s : CacheState) (g : Nat) (fl : MapFlags) (r : Nat)
    (hmem : (s.mr g).loc = .ML_MEM)
    (hg : g < NUM_MIPSFPUREG)
    (hfree : findFreeReg s (GetMIPSAllocationOrder s) = some r) :
    (MapReg s g fl).2.2 = ((r + S0 : Nat) : Int) ∧
    (MapReg s g fl).2.1 =
      (if fl.noinit = false ∧ g < TEMP0
        then [Instr.vldr (r + S0) ((g + 32) * 4)] else []) ∧
    (MapReg s g fl).1.ar r = { mipsReg := (g : Int), isDirty := fl.dirty } ∧
    ((MapReg s g fl).1.mr g).loc = .ML_ARMREG ∧
    ((MapReg s g fl).1.mr g).reg = (r : Int) ∧
    (∀ a, a ≠ r → (MapReg s g fl).1.ar a = s.ar a) ∧
    (∀ g', g' ≠ g → (MapReg s g fl).1.mr g' = s.mr g') ∧
    (MapReg s g fl).1.qr = s.qr := by
  have hnot : ¬((s.mr g).loc = .ML_ARMREG) := by
    rw [hmem]; intro hx; exact absurd hx (by simp)
  have hoff := GetMipsRegOffset_eq g hg
  unfold MapReg
  rw [if_neg hnot]
  rw [show allocationOrder.length + 3 = (allocationOrder.length + 2) + 1 from rfl]
  simp only [mapRegAlloc, hfree]
  refine ⟨?_, ?_, ?_, ?_, ?_, ?_, ?_, ?_⟩
  · simp
  · simp [hmem, hoff]
  · simp [setMr, setAr]
  · simp [setMr, setAr]
  · simp [setMr, setAr]
  · intro a ha; simp [setMr, setAr, ha]
  · intro g' hg'; simp [setMr, setAr, hg']
  · simp [setMr, setAr]

/-- C5: for a guest register `g` currently in memory, `MapReg` chooses the
first host register of the fixed allocation order whose `mipsReg` is free,
and emits exactly one scalar load from `(g + 32) * 4` if and only if
`NOINIT` is not set and `g` is memory-backed (`g < TEMP0`); a scratch slot
is never loaded. -/
theorem c5_mapreg_memory_first_free (s : CacheState) (g : Nat) (fl : MapFlags) (r : Nat)
    (hmem : (s.mr g).loc = .ML_MEM)
    (hg : g < NUM_MIPSFPUREG)
    (hfree : findFreeReg s (GetMIPSAllocationOrder s) = some r) :
    (MapReg s g fl).2.2 = ((r + S0 : Nat) : Int) ∧
    (MapReg s g fl).2.1 =
      (if fl.noinit = false ∧ g < TEMP0
        then [Instr.vldr (r + S0) ((g + 32) * 4)] else []) ∧
    (MapReg s g fl).1.ar r = { mipsReg := (g : Int), isDirty := fl.dirty } ∧
    ((MapReg s g fl).1.mr g).loc = .ML_ARMREG ∧
    ((MapReg s g fl).1.mr g).reg = (r : Int) ∧
    (∀ a, a ≠ r → (MapReg s g fl).1.ar a = s.ar a) ∧
    (∀ g', g' ≠ g → (MapReg s g fl).1.mr g' = s.mr g') ∧
    (MapReg s g fl).1.qr = s.qr :=
  MapReg_mem_free s g fl r hmem hg hfree

/-- Witness for C5: mapping guest 5 on a fresh cache picks `S2` (the first
allocation-order entry) and loads from offset `(5 + 32) * 4 = 148`. -/
theorem c5_mapreg_memory_first_free_witness :
    (state0.mr 5).loc = .ML_MEM ∧ 5 < NUM_MIPSFPUREG ∧
    findFreeReg state0 (GetMIPSAllocationOrder state0) = some 2 ∧
    (MapReg state0 5 MAP_NORMAL).2.2 = ((2 + S0 : Nat) : Int) ∧
    (MapReg state0 5 MAP_NORMAL).2.1 =
      (if MAP_NORMAL.noinit = false ∧ 5 < TEMP0
        then [Instr.vldr (2 + S0) ((5 + 32) * 4)] else []) :=
  ⟨by decide, by decide, by decide,
   (c5_mapreg_memory_first_free state0 5 MAP_NORMAL 2 (by decide) (by decide) (by decide)).1,
   (c5_mapreg_memory_first_free state0 5 MAP_NORMAL 2 (by decide) (by decide) (by decide)).2.1⟩

/-- C6: mapping is idempotent.  From a memory-resident guest with a free
allocation entry, `MapReg(g); MapReg(g)` returns the same host register both
times and emits exactly one load: the second call finds the guest already
`ML_ARMREG`, OR-s the host record's dirty bit with the `DIRTY` flag, and
emits nothing. -/
theorem c6_mapreg_idempotent (s : CacheState) (g : Nat) (r : Nat) (fl2 : MapFlags)
    (hmem : (s.mr g).loc = .ML_MEM)
    (hg : g < TEMP0)
    (hfree : findFreeReg s (GetMIPSAllocationOrder s) = some r) :
    (MapReg s g MAP_NORMAL).2.2 = ((r + S0 : Nat) : Int) ∧
    (MapReg (MapReg s g MAP_NORMAL).1 g fl2).2.2 = ((r + S0 : Nat) : Int) ∧
    (MapReg s g MAP_NORMAL).2.1 = [Instr.vldr (r + S0) ((g + 32) * 4)] ∧
    (MapReg (MapReg s g MAP_NORMAL).1 g fl2).2.1 = [] ∧
    ((MapReg (MapReg s g MAP_NORMAL).1 g fl2).1.ar r).isDirty =
      (((MapReg s g MAP_NORMAL).1.ar r).isDirty || fl2.dirty) := by
  have hg' : g < NUM_MIPSFPUREG := by
    have h160 : TEMP0 ≤ NUM_MIPSFPUREG := by decide
    omega
  obtain ⟨h1, h2, h3, h4, h5, -, -, -⟩ := MapReg_mem_free s g MAP_NORMAL r hmem hg' hfree
  have hcode : (MapReg s g MAP_NORMAL).2.1 = [Instr.vldr (r + S0) ((g + 32) * 4)] := by
    rw [h2]; simp [MAP_NORMAL, hg]
  obtain ⟨t, ht⟩ : ∃ t, (MapReg s g MAP_NORMAL).1 = t := ⟨_, rfl⟩
  rw [ht] at h3 h4 h5
  rw [ht]
  have key : MapReg t g fl2 =
      ((if fl2.dirty = true
          then setAr t ((t.mr g).reg.toNat) { t.ar ((t.mr g).reg.toNat) with isDirty := true }
          else t),
        [], (t.mr g).reg + (S0 : Int)) := by
    unfold MapReg
    rw [if_pos h4]
  refine ⟨h1, ?_, hcode, ?_, ?_⟩
  · rw [key, h5]
    simp
  · rw [key]
  · rw [key]
    cases hb : fl2.dirty <;> simp [setAr, hb, h5]

/-- Witness for C6: double-mapping guest 5 on a fresh cache returns `S2`
twice and loads once. -/
theorem c6_mapreg_idempotent_witness :
    (state0.mr 5).loc = .ML_MEM ∧ 5 < TEMP0 ∧
    findFreeReg state0 (GetMIPSAllocationOrder state0) = some 2 ∧
    (MapReg state0 5 MAP_NORMAL).2.2 = ((2 + S0 : Nat) : Int) ∧
    (MapReg (MapReg state0 5 MAP_NORMAL).1 5 FLAGS_DIRTY).2.2 = ((2 + S0 : Nat) : Int) ∧
    (MapReg state0 5 MAP_NORMAL).2.1 = [Instr.vldr (2 + S0) ((5 + 32) * 4)] ∧
    (MapReg (MapReg state0 5 MAP_NORMAL).1 5 FLAGS_DIRTY).2.1 = [] :=
  ⟨by decide, by decide, by decide,
   (c6_mapreg_idempotent state0 5 2 FLAGS_DIRTY (by decide) (by decide) (by decide)).1,
   (c6_mapreg_idempotent state0 5 2 FLAGS_DIRTY (by decide) (by decide) (by decide)).2.1,
   (c6_mapreg_idempotent state0 5 2 FLAGS_DIRTY (by decide) (by decide) (by decide)).2.2.1,
   (c6_mapreg_idempotent state0 5 2 FLAGS_DIRTY (by decide) (by decide) (by decide)).2.2.2.1⟩

/-! ### C4: eviction respects the locks -/

/-- C4: `MapReg` never evicts a locked guest.  The eviction scan only ever
returns an entry whose record is free or whose resident guest carries
neither lock; and when every allocation-order entry is occupied by a locked
guest, `MapReg` returns the invalid sentinel with the state unchanged and no
code emitted. -/
theorem c4_mapreg_respects_locks (s : CacheState) (g : Nat) (fl : MapFlags)
    (hnot : (s.mr g).loc ≠ .ML_ARMREG)
    (hall : ∀ x ∈ GetMIPSAllocationOrder s,
      (s.ar (x - S0)).mipsReg ≠ -1 ∧ lockedGuest s ((s.ar (x - S0)).mipsReg) = true) :
    MapReg s g fl = (s, [], INVALID_REG) ∧
    (∀ (t : CacheState) (order : List Nat) (v : Nat),
      findBestToSpill t order = some v →
      (t.ar v).mipsReg = -1 ∨ lockedGuest t ((t.ar v).mipsReg) = false) := by
  constructor
  · have hfree : findFreeReg s (GetMIPSAllocationOrder s) = none := by
      rw [findFreeReg, List.find?_eq_none]
      intro x hx
      obtain ⟨y, hy, rfl⟩ := List.mem_map.1 hx
      have h1 := (hall y hy).1
      simp only [beq_iff_eq]
      exact fun hc => h1 hc
    have hspill : findBestToSpill s (GetMIPSAllocationOrder s) = none := by
      rw [findBestToSpill, List.find?_eq_none]
      intro x hx
      obtain ⟨y, hy, rfl⟩ := List.mem_map.1 hx
      obtain ⟨h1, h2⟩ := hall y hy
      simp [h1, h2]
    unfold MapReg
    rw [if_neg hnot]
    rw [show allocationOrder.length + 3 = (allocationOrder.length + 2) + 1 from rfl]
    simp only [mapRegAlloc, hfree, hspill]
  · intro t order v hv
    have hp := List.find?_some hv
    by_cases hm : (t.ar v).mipsReg = -1
    · exact Or.inl hm
    · refine Or.inr ?_
      cases hlock : lockedGuest t ((t.ar v).mipsReg) with
      | false => rfl
      | true => simp [bne, hm, hlock] at hp

/-- Witness for C4: with all fourteen allocation-order entries spill-locked,
mapping guest 20 fails with the invalid sentinel and no state change. -/
theorem c4_mapreg_respects_locks_witness :
    (c4State.mr 20).loc ≠ .ML_ARMREG ∧
    MapReg c4State 20 MAP_NORMAL = (c4State, [], INVALID_REG) :=
  ⟨by decide,
   (c4_mapreg_respects_locks c4State 20 MAP_NORMAL (by decide) (by decide)).1⟩

/-! ### C2: the quad allocation retry loop never flushes -/

/-- With every mappable quad occupied the free-quad scan fails. -/
theorem qFindFreeQuad_none (s : CacheState)
    (hfull : ∀ q, 4 ≤ q → q < 16 → (s.qr q).mipsVec ≠ -1) :
    qFindFreeQuad s = none := by
  rw [qFindFreeQuad, List.find?_eq_none]
  intro q hq
  have hq16 := List.mem_range.1 hq
  by_cases h4 : 4 ≤ q
  · simp [MappableQ, h4, hfull q h4 hq16]
  · simp [MappableQ, h4]

/-- If the free-quad scan fails, the `retry:` loop fails for every fuel:
the state never changes between iterations. -/
theorem qAllocRetry_none (s : CacheState) (h : qFindFreeQuad s = none) :
    ∀ fuel, qAllocRetry s fuel = none := by
  intro fuel
  induction fuel with
  | zero => rfl
  | succ n ih => simp [qAllocRetry, h, ih]

/-- A successful free-quad scan makes the loop return at once. -/
theorem qAllocRetry_found (s : CacheState) (q : Nat) (fuel : Nat)
    (h : qFindFreeQuad s = some q) :
    qAllocRetry s (fuel + 1) = some q := by
  simp [qAllocRetry, h]

/-- C2: `QMapReg` does not terminate when every mappable quad is occupied
and no quad matches: the source's `retry:` loop flushes nothing (the flush
is a `TODO`), so the allocation scan fails identically forever — modelled by
`qAllocRetry` returning `none` for every fuel bound, and `QMapReg`
returning `none`. -/
theorem c2_qmapreg_allocation_diverges (s : CacheState) (vreg : Int) (sz : VectorSize)
    (vregs : Nat → Nat) (fl : MapFlags)
    (hfull : ∀ q, 4 ≤ q → q < 16 → (s.qr q).mipsVec ≠ -1)
    (hnm : qFindMatch s vregs (GetNumVectorElements sz) = none) :
    (∀ fuel, qAllocRetry s fuel = none) ∧
    QMapReg s vreg sz vregs fl = none := by
  have hfind := qFindFreeQuad_none s hfull
  refine ⟨qAllocRetry_none s hfind, ?_⟩
  simp only [QMapReg]
  rw [show qFindMatch { s with qTime := s.qTime + 1 } vregs (GetNumVectorElements sz) = none
      from hnm]
  rw [show qAllocRetry { s with qTime := s.qTime + 1 } 16 = none
      from qAllocRetry_none s hfind 16]

/-- Witness for C2: on a state with all twelve mappable quads occupied, the
allocation loop returns nothing even with fuel 1000, and `QMapReg`
diverges. -/
theorem c2_qmapreg_allocation_diverges_witness :
    qAllocRetry c2FullState 1000 = none ∧
    QMapReg c2FullState 0 .V_Single (fun i => i) MAP_NORMAL = none :=
  ⟨(c2_qmapreg_allocation_diverges c2FullState 0 .V_Single (fun i => i) MAP_NORMAL
      (by decide) (by decide)).1 1000,
   (c2_qmapreg_allocation_diverges c2FullState 0 .V_Single (fun i => i) MAP_NORMAL
      (by decide) (by decide)).2⟩

/-! ### C7: which register view QMapReg returns -/

/-- Explicit form of the fresh-allocation path of `QMapReg`. -/
theorem QMapReg_fresh_eq (s : CacheState) (vreg : Int) (sz : VectorSize) (vregs : Nat → Nat)
    (fl : MapFlags) (quad : Nat)
    (hnm : qFindMatch s vregs (GetNumVectorElements sz) = none)
    (hq : qFindFreeQuad s = some quad) :
    QMapReg s vreg sz vregs fl =
      (let s1 : CacheState := { s with qTime := s.qTime + 1 }
       let n := GetNumVectorElements sz
       let p1 := if fl.dirty then runList (fun t i => FlushV t (vregs i)) s1 (List.range n)
                 else (s1, [])
       let p2 := QFlush p1.1 quad
       let s3 := setQr p2.1 quad { p2.1.qr quad with sz := sz, mipsVec := vreg }
       some (qRegisterLanes s3 quad vregs fl n,
             p1.2 ++ p2.2 ++ (if fl.noinit then [] else qLoadCode quad sz vregs),
             ((QuadAsQ quad : Nat) : Int))) := by
  simp only [QMapReg]
  rw [show qFindMatch { s with qTime := s.qTime + 1 } vregs (GetNumVectorElements sz) = none
      from hnm]
  rw [show qAllocRetry { s with qTime := s.qTime + 1 } 16 = some quad
      from qAllocRetry_found _ _ 15 hq]

/-- C7 (amended): on the match/extend path `QMapReg` returns the
double-alias view for `V_Single`/`V_Pair` and the quad view for
`V_Triple`/`V_Quad`; on the fresh-allocation path it always returns the quad
view, whatever the size. -/
theorem c7_qmapreg_return_view (s : CacheState) (vreg : Int) (sz : VectorSize)
    (vregs : Nat → Nat) (fl : MapFlags) (q quad : Nat)
    (hsz : sz ≠ .V_Invalid) :
    (qFindMatch s vregs (GetNumVectorElements sz) = some q →
      (QMapReg s vreg sz vregs fl).map (fun x => x.2.2) =
        some (if szRank sz ≤ 2 then ((QuadAsD q : Nat) : Int)
              else ((QuadAsQ q : Nat) : Int))) ∧
    (qFindMatch s vregs (GetNumVectorElements sz) = none →
      qFindFreeQuad s = some quad →
      (QMapReg s vreg sz vregs fl).map (fun x => x.2.2) =
        some ((QuadAsQ quad : Nat) : Int)) := by
  constructor
  · intro hm
    have key : ∀ (st : CacheState) (code : List Instr),
        (qMapMatchFinish st q sz fl code).2.2 =
          (if szRank sz ≤ 2 then ((QuadAsD q : Nat) : Int)
           else ((QuadAsQ q : Nat) : Int)) := by
      intro st code
      cases sz
      · exact absurd rfl hsz
      all_goals simp [qMapMatchFinish, szRank]
    simp only [QMapReg]
    rw [show qFindMatch { s with qTime := s.qTime + 1 } vregs (GetNumVectorElements sz) = some q
        from hm]
    split
    · rename_i q' heq
      injection heq with hqq
      subst hqq
      split
      · simp only [Option.map_some']
        rw [key]
      · split
        · simp only [Option.map_some']
          rw [key]
        · simp only [Option.map_some']
          rw [key]
    · rename_i heq
      simp at heq
  · intro hnm hq
    rw [QMapReg_fresh_eq s vreg sz vregs fl quad hnm hq]
    simp

/-- Counterexample for C7: a fresh `V_Single` mapping returns the quad view
`Q4` (code 84), not the double alias `D8` (code 56) the claim requires for
sizes up to `V_Pair`. -/
theorem c7_counterexample :
    (QMapReg state0N 0 .V_Single (fun _ => 5) MAP_NORMAL).map (fun x => x.2.2) =
      some ((QuadAsQ 4 : Nat) : Int) ∧
    ((QuadAsQ 4 : Nat) : Int) ≠ ((QuadAsD 4 : Nat) : Int) := by
  constructor
  · decide
  · decide

/-- Witness for C7 (amended), fresh-allocation side: a fresh `V_Pair` also
returns the quad view. -/
theorem c7_qmapreg_return_view_witness :
    (QMapReg state0N 1 .V_Pair (fun i => 10 + i) MAP_NORMAL).map (fun x => x.2.2) =
      some ((QuadAsQ 4 : Nat) : Int) :=
  (c7_qmapreg_return_view state0N 1 .V_Pair (fun i => 10 + i) MAP_NORMAL 0 4
      (by decide)).2 (by decide) (by decide)

/-! ### C8: store selection in QFlush -/

/-- A dirty mappable quad flush emits exactly `qFlushStoreCode`. -/
theorem QFlush_dirty_code (s : CacheState) (q : Nat)
    (hq : MappableQ q = true) (hd : (s.qr q).isDirty = true) :
    (QFlush s q).2 = qFlushStoreCode q (s.qr q).sz (s.qr q).vregs := by
  simp [QFlush, hq, hd]

/-- C8 (amended): `QFlush` on a dirty mappable quad emits one multi-lane
store for a fully consecutive `V_Pair`/`V_Quad`, a pair store plus a lane
store for a `V_Triple` only when all three lanes are consecutive, and
otherwise one lane store (with its address add) per live lane — in
particular a `V_Triple` whose first two lanes alone are consecutive gets
three lane stores, not a pair store plus a lane store. -/
theorem c8_qflush_store_selection (s : CacheState) (q : Nat)
    (hq : MappableQ q = true) (hd : (s.qr q).isDirty = true) :
    ((s.qr q).sz = .V_Single →
      (QFlush s q).2 =
        [.addOff (GetMipsRegOffsetV ((s.qr q).vregs 0)), .vst1lane (QuadAsQ q) 0]) ∧
    ((s.qr q).sz = .V_Pair → (s.qr q).vregs 1 = (s.qr q).vregs 0 + 1 →
      (QFlush s q).2 =
        [.addOff (GetMipsRegOffsetV ((s.qr q).vregs 0)), .vst1 (QuadAsD q) 1 false]) ∧
    ((s.qr q).sz = .V_Pair → (s.qr q).vregs 1 ≠ (s.qr q).vregs 0 + 1 →
      (QFlush s q).2 =
        [.addOff (GetMipsRegOffsetV ((s.qr q).vregs 0)), .vst1lane (QuadAsQ q) 0,
         .addOff (GetMipsRegOffsetV ((s.qr q).vregs 1)), .vst1lane (QuadAsQ q) 1]) ∧
    ((s.qr q).sz = .V_Triple →
      ((s.qr q).vregs 2 = (s.qr q).vregs 1 + 1 ∧ (s.qr q).vregs 1 = (s.qr q).vregs 0 + 1) →
      (QFlush s q).2 =
        [.addOff (GetMipsRegOffsetV ((s.qr q).vregs 0)), .vst1 (QuadAsD q) 1 true,
         .vst1lane (QuadAsQ q) 2]) ∧
    ((s.qr q).sz = .V_Triple →
      ¬((s.qr q).vregs 2 = (s.qr q).vregs 1 + 1 ∧ (s.qr q).vregs 1 = (s.qr q).vregs 0 + 1) →
      (QFlush s q).2 =
        [.addOff (GetMipsRegOffsetV ((s.qr q).vregs 0)), .vst1lane (QuadAsQ q) 0,
         .addOff (GetMipsRegOffsetV ((s.qr q).vregs 1)), .vst1lane (QuadAsQ q) 1,
         .addOff (GetMipsRegOffsetV ((s.qr q).vregs 2)), .vst1lane (QuadAsQ q) 2]) ∧
    ((s.qr q).sz = .V_Quad →
      ((s.qr q).vregs 3 = (s.qr q).vregs 2 + 1 ∧ (s.qr q).vregs 2 = (s.qr q).vregs 1 + 1 ∧
        (s.qr q).vregs 1 = (s.qr q).vregs 0 + 1) →
      (QFlush s q).2 =
        [.addOff (GetMipsRegOffsetV ((s.qr q).vregs 0)), .vst1 (QuadAsD q) 2 false]) ∧
    ((s.qr q).sz = .V_Quad →
      ¬((s.qr q).vregs 3 = (s.qr q).vregs 2 + 1 ∧ (s.qr q).vregs 2 = (s.qr q).vregs 1 + 1 ∧
        (s.qr q).vregs 1 = (s.qr q).vregs 0 + 1) →
      (QFlush s q).2 =
        [.addOff (GetMipsRegOffsetV ((s.qr q).vregs 0)), .vst1lane (QuadAsQ q) 0,
         .addOff (GetMipsRegOffsetV ((s.qr q).vregs 1)), .vst1lane (QuadAsQ q) 1,
         .addOff (GetMipsRegOffsetV ((s.qr q).vregs 2)), .vst1lane (QuadAsQ q) 2,
         .addOff (GetMipsRegOffsetV ((s.qr q).vregs 3)), .vst1lane (QuadAsQ q) 3]) := by
  have hbody := QFlush_dirty_code s q hq hd
  refine ⟨?_, ?_, ?_, ?_, ?_, ?_, ?_⟩
  · intro h1
    rw [hbody, h1]
    simp [qFlushStoreCode]
  · intro h1 h2
    rw [hbody, h1]
    simp [qFlushStoreCode, h2]
  · intro h1 h2
    rw [hbody, h1]
    simp [qFlushStoreCode, h2]
  · intro h1 h2
    rw [hbody, h1]
    simp [qFlushStoreCode, h2.1, h2.2]
  · intro h1 h2
    rw [hbody, h1]
    simp only [qFlushStoreCode, if_neg h2]
  · intro h1 h2
    rw [hbody, h1]
    simp [qFlushStoreCode, h2.1, h2.2.1, h2.2.2]
  · intro h1 h2
    rw [hbody, h1]
    simp only [qFlushStoreCode, if_neg h2]

/-- Counterexample for C8: the dirty `V_Triple` `[10, 11, 20]` (first two
lanes consecutive, third not) is flushed with three lane stores and no
multi-lane store, where the claim requires exactly one pair store plus one
lane store. -/
theorem c8_counterexample :
    (c8State.qr 4).sz = .V_Triple ∧
    (c8State.qr 4).vregs 1 = (c8State.qr 4).vregs 0 + 1 ∧
    (c8State.qr 4).vregs 2 ≠ (c8State.qr 4).vregs 1 + 1 ∧
    storeCount (QFlush c8State 4).2 = 3 ∧
    (QFlush c8State 4).2.countP (fun i => match i with | .vst1 _ _ _ => true | _ => false) = 0 := by
  refine ⟨by decide, by decide, by decide, by decide, by decide⟩

/-! ### FlushR case analyses (shared by the sharing and flush-all proofs) -/

/-- `FlushR` on a memory-resident guest only refreshes the record. -/
theorem FlushR_mem (s : CacheState) (r : Nat) (h : (s.mr r).loc = .ML_MEM) :
    FlushR s r = (setMr s r { s.mr r with loc := .ML_MEM, reg := INVALID_REG }, []) := by
  simp [FlushR, h]

/-- `FlushR` on an (erroneous) immediate likewise only logs and refreshes. -/
theorem FlushR_imm (s : CacheState) (r : Nat) (h : (s.mr r).loc = .ML_IMM) :
    FlushR s r = (setMr s r { s.mr r with loc := .ML_MEM, reg := INVALID_REG }, []) := by
  simp [FlushR, h]

/-- `FlushR` on a scalar-resident guest: stores once iff the host record is
dirty, frees the host record, returns the guest to memory, touches nothing
else. -/
theorem FlushR_scalar_spec (s : CacheState) (r a : Nat)
    (hloc : (s.mr r).loc = .ML_ARMREG)
    (hreg : (s.mr r).reg = (a : Int))
    (ha : a < 32) :
    (FlushR s r).2 =
      (if (s.ar a).isDirty then [Instr.vstr (a + S0) (GetMipsRegOffset r)] else []) ∧
    (FlushR s r).1.ar a = { mipsReg := -1, isDirty := false } ∧
    (∀ x, x ≠ a → (FlushR s r).1.ar x = s.ar x) ∧
    (FlushR s r).1.mr r = { s.mr r with loc := .ML_MEM, reg := INVALID_REG } ∧
    (∀ g, g ≠ r → (FlushR s r).1.mr g = s.mr g) ∧
    (FlushR s r).1.qr = s.qr := by
  have hnq : ¬((Q0 : Int) ≤ (s.mr r).reg ∧ (s.mr r).reg ≤ (Q0 : Int) + 15) := by
    rw [hreg]
    simp only [Q0]
    push_cast
    omega
  refine ⟨?_, ?_, ?_, ?_, ?_, ?_⟩ <;>
    (try intro x hx) <;>
    simp only [FlushR, hloc] <;>
    rw [if_neg hnq] <;>
    simp only [hreg, Int.toNat_natCast] <;>
    cases hd : (s.ar a).isDirty <;>
    simp [hd, setMr, setAr] <;>
    simp [hx]

/-- `FlushR` on a quad-resident guest: a lane store iff the quad is dirty;
only the guest's own record changes (neither the quad nor the scalar table
is touched). -/
theorem FlushR_quad_spec (s : CacheState) (r q : Nat)
    (hloc : (s.mr r).loc = .ML_ARMREG)
    (hreg : (s.mr r).reg = ((Q0 + q : Nat) : Int))
    (hq : q < 16) :
    (FlushR s r).2 =
      (if (s.qr q).isDirty then
        [Instr.addOff (GetMipsRegOffset r), Instr.vst1lane (Q0 + q) (s.mr r).lane.toNat]
      else []) ∧
    (FlushR s r).1.ar = s.ar ∧
    (FlushR s r).1.mr r = { s.mr r with loc := .ML_MEM, reg := INVALID_REG } ∧
    (∀ g, g ≠ r → (FlushR s r).1.mr g = s.mr g) ∧
    (FlushR s r).1.qr = s.qr := by
  have hyes : ((Q0 : Int) ≤ (s.mr r).reg ∧ (s.mr r).reg ≤ (Q0 : Int) + 15) := by
    rw [hreg]
    simp only [Q0]
    push_cast
    omega
  have hsub : ((s.mr r).reg - (Q0 : Int)).toNat = q := by
    rw [hreg]
    simp only [Q0]
    push_cast
    omega
  refine ⟨?_, ?_, ?_, ?_, ?_⟩
  · cases hd : (s.qr q).isDirty <;>
      simp [FlushR, hloc, hyes, hsub, hd, setMr]
  · cases hd : (s.qr q).isDirty <;>
      simp [FlushR, hloc, hyes, hsub, hd, setMr]
  · cases hd : (s.qr q).isDirty <;>
      simp [FlushR, hloc, hyes, hsub, hd, setMr]
  · intro g hg
    cases hd : (s.qr q).isDirty <;>
      simp [FlushR, hloc, hyes, hsub, hd, setMr, hg]
  · cases hd : (s.qr q).isDirty <;>
      simp [FlushR, hloc, hyes, hsub, hd, setMr]

/-- A clean (or unmappable) quad flush is a no-op. -/
theorem QFlush_clean (s : CacheState) (q : Nat) (h : (s.qr q).isDirty = false) :
    QFlush s q = (s, []) := by
  unfold QFlush
  split
  · rfl
  · simp [h]

/-! ### C1: pure-read sharing breaks single residence -/

/-- Fresh-allocation path with `DIRTY` clear: no pre-flush of the lanes. -/
theorem QMapReg_fresh_clean (s : CacheState) (vreg : Int) (sz : VectorSize)
    (vregs : Nat → Nat) (ni : Bool) (quad : Nat)
    (hnm : qFindMatch s vregs (GetNumVectorElements sz) = none)
    (hq : qFindFreeQuad s = some quad) :
    QMapReg s vreg sz vregs { dirty := false, noinit := ni } =
      some
        (qRegisterLanes
          (setQr (QFlush { s with qTime := s.qTime + 1 } quad).1 quad
            { (QFlush { s with qTime := s.qTime + 1 } quad).1.qr quad with
                sz := sz, mipsVec := vreg })
          quad vregs { dirty := false, noinit := ni } (GetNumVectorElements sz),
         (QFlush { s with qTime := s.qTime + 1 } quad).2 ++
           (if ni then [] else qLoadCode quad sz vregs),
         ((QuadAsQ quad : Nat) : Int)) := by
  rw [QMapReg_fresh_eq s vreg sz vregs { dirty := false, noinit := ni } quad hnm hq]
  exact rfl

/-- Fresh-allocation path with `DIRTY` set: the lanes are flushed first. -/
theorem QMapReg_fresh_dirty (s : CacheState) (vreg : Int) (sz : VectorSize)
    (vregs : Nat → Nat) (ni : Bool) (quad : Nat)
    (hnm : qFindMatch s vregs (GetNumVectorElements sz) = none)
    (hq : qFindFreeQuad s = some quad) :
    QMapReg s vreg sz vregs { dirty := true, noinit := ni } =
      some
        (qRegisterLanes
          (setQr
            (QFlush (runList (fun t i => FlushV t (vregs i)) { s with qTime := s.qTime + 1 }
              (List.range (GetNumVectorElements sz))).1 quad).1 quad
            { (QFlush (runList (fun t i => FlushV t (vregs i)) { s with qTime := s.qTime + 1 }
                (List.range (GetNumVectorElements sz))).1 quad).1.qr quad with
                sz := sz, mipsVec := vreg })
          quad vregs { dirty := true, noinit := ni } (GetNumVectorElements sz),
         (runList (fun t i => FlushV t (vregs i)) { s with qTime := s.qTime + 1 }
            (List.range (GetNumVectorElements sz))).2 ++
           (QFlush (runList (fun t i => FlushV t (vregs i)) { s with qTime := s.qTime + 1 }
              (List.range (GetNumVectorElements sz))).1 quad).2 ++
           (if ni then [] else qLoadCode quad sz vregs),
         ((QuadAsQ quad : Nat) : Int)) := by
  rw [QMapReg_fresh_eq s vreg sz vregs { dirty := true, noinit := ni } quad hnm hq]
  exact rfl

/-- C1 (amended): when `QMapReg` freshly maps a `V_Single` whose lane is
currently scalar-mapped, the lane ends up quad-mapped; without the `DIRTY`
flag the old scalar host record still names the guest (pure-read sharing,
two host-side slots), whereas with the `DIRTY` flag the scalar record is
flushed first and only the quad lane names the guest. -/
theorem c1_qmapreg_pure_read_sharing (s : CacheState) (vreg : Int) (vregs : Nat → Nat)
    (ni : Bool) (v a quad : Nat)
    (hv : vregs 0 = v)
    (hloc : (s.mr (32 + v)).loc = .ML_ARMREG)
    (hreg : (s.mr (32 + v)).reg = (a : Int))
    (ha : a < 32)
    (hback : (s.ar a).mipsReg = ((32 + v : Nat) : Int))
    (hnm : qFindMatch s vregs 1 = none)
    (hq : qFindFreeQuad s = some quad)
    (hclean : (s.qr quad).isDirty = false) :
    ((QMapReg s vreg .V_Single vregs { dirty := false, noinit := ni }).map
        (fun x => ((x.1.ar a).mipsReg, (x.1.qr quad).vregs 0, (x.1.mr (32 + v)).reg)) =
      some (((32 + v : Nat) : Int), v, ((QuadAsQ quad : Nat) : Int))) ∧
    ((QMapReg s vreg .V_Single vregs { dirty := true, noinit := ni }).map
        (fun x => ((x.1.ar a).mipsReg, (x.1.qr quad).vregs 0, (x.1.mr (32 + v)).reg)) =
      some (-1, v, ((QuadAsQ quad : Nat) : Int))) := by
  have hr1 : List.range 1 = [0] := rfl
  constructor
  · rw [QMapReg_fresh_clean s vreg .V_Single vregs ni quad hnm hq]
    rw [show QFlush { s with qTime := s.qTime + 1 } quad = ({ s with qTime := s.qTime + 1 }, [])
        from QFlush_clean _ quad hclean]
    simp [qRegisterLanes, show GetNumVectorElements .V_Single = 1 from rfl, hr1, List.foldl,
      setMr, setQr, hv, hback]
  · rw [QMapReg_fresh_dirty s vreg .V_Single vregs ni quad hnm hq]
    have hcomm : v + 32 = 32 + v := Nat.add_comm v 32
    obtain ⟨-, har, -, hmr, -, hqr⟩ :=
      FlushR_scalar_spec { s with qTime := s.qTime + 1 } (v + 32) a
        (by rw [hcomm]; exact hloc) (by rw [hcomm]; exact hreg) ha
    simp only [show GetNumVectorElements .V_Single = 1 from rfl, hr1, runList, FlushV, hv,
      List.append_nil]
    rw [show QFlush (FlushR { s with qTime := s.qTime + 1 } (v + 32)).1 quad =
          ((FlushR { s with qTime := s.qTime + 1 } (v + 32)).1, [])
        from QFlush_clean _ quad (by rw [hqr]; exact hclean)]
    simp [qRegisterLanes, show GetNumVectorElements .V_Single = 1 from rfl, hr1, List.foldl,
      setMr, setQr, hv, har]

set_option maxRecDepth 20000 in
/-- Counterexample for C1: map guest 37 (lane 5) into a scalar register,
then `QMapReg` lane 5 as a clean `V_Single`: afterwards scalar record 4
still names guest 37 while quad 4's lane 0 also names it, so guest 37 sits
in two host-side slots and the at-most-one-place invariant fails. -/
theorem c1_counterexample :
    (QMapReg (MapReg state0N 37 MAP_NORMAL).1 0 .V_Single (fun _ => 5) MAP_NORMAL).map
        (fun x => ((x.1.ar 4).mipsReg, (x.1.qr 4).vregs 0, (x.1.mr 37).reg,
                   decide (atMostOnePlace x.1))) =
      some (37, 5, ((QuadAsQ 4 : Nat) : Int), false) := by
  decide

/-- Witness for C1 (amended) on the concrete two-step run: without `DIRTY`
the guest is doubly resident, with `DIRTY` the scalar record is freed. -/
theorem c1_qmapreg_pure_read_sharing_witness :
    ((QMapReg (MapReg state0N 37 MAP_NORMAL).1 0 .V_Single (fun _ => 5)
        { dirty := false, noinit := false }).map
        (fun x => ((x.1.ar 4).mipsReg, (x.1.qr 4).vregs 0, (x.1.mr (32 + 5)).reg)) =
      some (((32 + 5 : Nat) : Int), 5, ((QuadAsQ 4 : Nat) : Int))) ∧
    ((QMapReg (MapReg state0N 37 MAP_NORMAL).1 0 .V_Single (fun _ => 5)
        { dirty := true, noinit := false }).map
        (fun x => ((x.1.ar 4).mipsReg, (x.1.qr 4).vregs 0, (x.1.mr (32 + 5)).reg)) =
      some (-1, 5, ((QuadAsQ 4 : Nat) : Int))) :=
  ⟨(c1_qmapreg_pure_read_sharing (MapReg state0N 37 MAP_NORMAL).1 0 (fun _ => 5) false 5 4 4
      rfl (by decide) (by decide) (by decide) (by decide) (by decide) (by decide)
      (by decide)).1,
   (c1_qmapreg_pure_read_sharing (MapReg state0N 37 MAP_NORMAL).1 0 (fun _ => 5) false 5 4 4
      rfl (by decide) (by decide) (by decide) (by decide) (by decide) (by decide)
      (by decide)).2⟩

/-! ### Loop and concatenation utilities -/

theorem runList_nil (f : CacheState → Nat → CacheState × List Instr) (s : CacheState) :
    runList f s [] = (s, []) := rfl

theorem runList_cons (f : CacheState → Nat → CacheState × List Instr) (s : CacheState)
    (x : Nat) (xs : List Nat) :
    runList f s (x :: xs) =
      ((runList f (f s x).1 xs).1, (f s x).2 ++ (runList f (f s x).1 xs).2) := rfl

theorem joinCode_nil {α : Type} (f : Nat → List α) : joinCode f [] = [] := rfl

theorem joinCode_cons {α : Type} (f : Nat → List α) (x : Nat) (xs : List Nat) :
    joinCode f (x :: xs) = f x ++ joinCode f xs := rfl

theorem joinCode_congr {α : Type} (f f' : Nat → List α) (l : List Nat)
    (h : ∀ x ∈ l, f x = f' x) : joinCode f l = joinCode f' l := by
  induction l with
  | nil => rfl
  | cons x xs ih =>
    rw [joinCode_cons, joinCode_cons, h x (List.mem_cons_self x xs),
      ih (fun y hy => h y (List.mem_cons_of_mem x hy))]

theorem count_joinCode {α : Type} [DecidableEq α] (x : α) (f : Nat → List α) (l : List Nat) :
    (joinCode f l).count x = (l.map (fun g => (f g).count x)).sum := by
  induction l with
  | nil => rfl
  | cons y ys ih => simp [joinCode_cons, List.count_append, ih]

/-- Summing a per-index count where no index contributes. -/
theorem sum_map_eq_zero (l : List Nat) (h : Nat → Nat)
    (hall : ∀ g ∈ l, h g = 0) : (l.map h).sum = 0 := by
  induction l with
  | nil => rfl
  | cons y ys ih =>
    rw [List.map_cons, List.sum_cons, hall y (List.mem_cons_self y ys),
      ih (fun g hg => hall g (List.mem_cons_of_mem _ hg))]

/-- Summing a per-index count where at most one index contributes. -/
theorem sum_map_eq_single (l : List Nat) (h : Nat → Nat) (g0 : Nat)
    (hg0 : g0 ∈ l) (hnd : l.Nodup) (hothers : ∀ g ∈ l, g ≠ g0 → h g = 0) :
    (l.map h).sum = h g0 := by
  induction l with
  | nil => cases hg0
  | cons y ys ih =>
    rcases List.mem_cons.1 hg0 with hy | hy
    · subst hy
      have hz : ∀ g ∈ ys, h g = 0 := by
        intro g hg
        refine hothers g (List.mem_cons_of_mem _ hg) ?_
        intro hgg
        subst hgg
        exact (List.nodup_cons.1 hnd).1 hg
      rw [List.map_cons, List.sum_cons, sum_map_eq_zero ys h hz]
      simp
    · have hy0 : y ≠ g0 := by
        intro hyy
        subst hyy
        exact (List.nodup_cons.1 hnd).1 hy
      rw [List.map_cons, List.sum_cons, hothers y (List.mem_cons_self y ys) hy0,
        ih hy (List.nodup_cons.1 hnd).2
          (fun g hg hgg => hothers g (List.mem_cons_of_mem _ hg) hgg)]
      simp

/-! ### DiscardR case analyses -/

/-- `DiscardR` on a guest not in a host register only resets the record. -/
theorem DiscardR_notarm (s : CacheState) (r : Nat) (h : (s.mr r).loc ≠ .ML_ARMREG) :
    DiscardR s r =
      setMr s r
        { s.mr r with loc := .ML_MEM, reg := INVALID_REG, tempLock := false, spillLock := false } := by
  cases hl : (s.mr r).loc
  · simp [DiscardR, hl]
  · exact absurd hl h
  · simp [DiscardR, hl]

/-- `DiscardR` on a host-resident guest: frees the named scalar record (no
store), resets the guest record and clears its locks; nothing else moves. -/
theorem DiscardR_arm_spec (s : CacheState) (r a : Nat)
    (hloc : (s.mr r).loc = .ML_ARMREG)
    (hreg : (s.mr r).reg = (a : Int)) :
    (DiscardR s r).ar a = { mipsReg := -1, isDirty := false } ∧
    (∀ x, x ≠ a → (DiscardR s r).ar x = s.ar x) ∧
    (DiscardR s r).mr r =
      { s.mr r with loc := .ML_MEM, reg := INVALID_REG, tempLock := false, spillLock := false } ∧
    (∀ g, g ≠ r → (DiscardR s r).mr g = s.mr g) ∧
    (DiscardR s r).qr = s.qr := by
  refine ⟨?_, ?_, ?_, ?_, ?_⟩ <;>
    (try intro x hx) <;>
    simp [DiscardR, hloc, hreg, setMr, setAr] <;>
    simp [hx]

/-! ### QFlush state effects -/

theorem qFlushClearLanes_foldl_mr (v : Nat → Nat) (l : List Nat) (s : CacheState) (g : Nat) :
    ((l.foldl
        (fun t i => setMr t (32 + v i) { t.mr (32 + v i) with loc := .ML_MEM, lane := -1 })
        s).mr g) =
      if ∃ i ∈ l, 32 + v i = g then { s.mr g with loc := .ML_MEM, lane := -1 } else s.mr g := by
  induction l generalizing s with
  | nil => simp
  | cons x xs ih =>
    rw [List.foldl_cons, ih]
    by_cases hgx : g = 32 + v x
    · have hex : ∃ i ∈ x :: xs, 32 + v i = g := ⟨x, List.mem_cons_self x xs, hgx.symm⟩
      rw [if_pos hex]
      by_cases hxs : ∃ i ∈ xs, 32 + v i = g
      · rw [if_pos hxs]
        simp [setMr_mr, hgx]
      · rw [if_neg hxs]
        simp [setMr_mr, hgx]
    · have hsplit : (∃ i ∈ x :: xs, 32 + v i = g) ↔ (∃ i ∈ xs, 32 + v i = g) := by
        constructor
        · rintro ⟨i, hi, hig⟩
          rcases List.mem_cons.1 hi with rfl | hi
          · exact absurd hig.symm hgx
          · exact ⟨i, hi, hig⟩
        · rintro ⟨i, hi, hig⟩
          exact ⟨i, List.mem_cons_of_mem x hi, hig⟩
      by_cases hxs : ∃ i ∈ xs, 32 + v i = g
      · rw [if_pos hxs, if_pos (hsplit.2 hxs)]
        simp [setMr_mr, hgx]
      · rw [if_neg hxs, if_neg (fun hc => hxs (hsplit.1 hc))]
        simp [setMr_mr, hgx]

theorem qFlushClearLanes_mr (v : Nat → Nat) (n : Nat) (s : CacheState) (g : Nat) :
    (qFlushClearLanes v n s).mr g =
      if ∃ i ∈ List.range n, 32 + v i = g
      then { s.mr g with loc := .ML_MEM, lane := -1 } else s.mr g :=
  qFlushClearLanes_foldl_mr v (List.range n) s g

theorem qFlushClearLanes_ar (v : Nat → Nat) (n : Nat) (s : CacheState) :
    (qFlushClearLanes v n s).ar = s.ar := by
  unfold qFlushClearLanes
  induction (List.range n) generalizing s with
  | nil => rfl
  | cons x xs ih => rw [List.foldl_cons]; exact ih _

theorem qFlushClearLanes_qr (v : Nat → Nat) (n : Nat) (s : CacheState) :
    (qFlushClearLanes v n s).qr = s.qr := by
  unfold qFlushClearLanes
  induction (List.range n) generalizing s with
  | nil => rfl
  | cons x xs ih => rw [List.foldl_cons]; exact ih _

/-- State effects of a dirty mappable `QFlush`: the quad is cleared (dirty
bit and owner only — `sz` and `vregs` remain), its lane occupants return to
memory with `lane = -1`, and nothing else changes. -/
theorem QFlush_dirty_spec (s : CacheState) (q : Nat)
    (hq : MappableQ q = true) (hd : (s.qr q).isDirty = true) :
    (QFlush s q).1.qr q = { s.qr q with isDirty := false, mipsVec := -1 } ∧
    (∀ q', q' ≠ q → (QFlush s q).1.qr q' = s.qr q') ∧
    (QFlush s q).1.ar = s.ar ∧
    (∀ g, (∃ i ∈ List.range (GetNumVectorElements (s.qr q).sz), 32 + (s.qr q).vregs i = g) →
      (QFlush s q).1.mr g = { s.mr g with loc := .ML_MEM, lane := -1 }) ∧
    (∀ g, (∀ i ∈ List.range (GetNumVectorElements (s.qr q).sz), 32 + (s.qr q).vregs i ≠ g) →
      (QFlush s q).1.mr g = s.mr g) := by
  have hqf : (QFlush s q).1 =
      qFlushClearLanes (s.qr q).vregs (GetNumVectorElements (s.qr q).sz)
        (setQr s q { s.qr q with isDirty := false, mipsVec := -1 }) := by
    simp [QFlush, hq, hd]
  refine ⟨?_, ?_, ?_, ?_, ?_⟩
  · rw [hqf, qFlushClearLanes_qr]
    simp [setQr]
  · intro q' hq'
    rw [hqf, qFlushClearLanes_qr]
    simp [setQr, hq']
  · rw [hqf, qFlushClearLanes_ar]
    rfl
  · intro g hg
    rw [hqf, qFlushClearLanes_mr, if_pos hg]
    rfl
  · intro g hg
    rw [hqf, qFlushClearLanes_mr, if_neg (by rintro ⟨i, hi, hig⟩; exact hg i hi hig)]
    rfl

/-! ### The guest walk of FlushAll -/

/-- `FlushRCode` only looks at the guest's record, the quad table, and (for
a scalar resident) its own scalar record. -/
theorem FlushRCode_congr (t t1 : CacheState) (g' : Nat)
    (hmr : t1.mr g' = t.mr g')
    (hqr : t1.qr = t.qr)
    (har : (t.mr g').loc = .ML_ARMREG →
      ¬((Q0 : Int) ≤ (t.mr g').reg ∧ (t.mr g').reg ≤ (Q0 : Int) + 15) →
      t1.ar ((t.mr g').reg.toNat) = t.ar ((t.mr g').reg.toNat)) :
    FlushRCode t1 g' = FlushRCode t g' := by
  unfold FlushRCode
  rw [hmr, hqr]
  cases hl : (t.mr g').loc
  · rfl
  · by_cases htest : (Q0 : Int) ≤ (t.mr g').reg ∧ (t.mr g').reg ≤ (Q0 : Int) + 15
    · rw [if_pos htest, if_pos htest]
    · rw [if_neg htest, if_neg htest, har hl htest]
  · rfl

/-- A slot whose record names guest `g` forces, under `WFscalars`, that `g`
is scalar-resident exactly there. -/
theorem slot_names_mem (t : CacheState) (HS : WFscalars t) (a g : Nat)
    (ha : a < 32) (hname : (t.ar a).mipsReg = (g : Int)) :
    (t.mr g).loc = .ML_ARMREG ∧ (t.mr g).reg = (a : Int) := by
  have hne : (t.ar a).mipsReg ≠ -1 := by
    rw [hname]
    intro hc
    omega
  obtain ⟨-, -, hloc, hreg⟩ := (HS.2.1 a ha).2 hne
  rw [hname] at hloc hreg
  simp only [Int.toNat_natCast] at hloc hreg
  exact ⟨hloc, hreg⟩

/-- One step of the final guest walk of `FlushAll`, under `WFscalars`:
the guest goes to memory, its scalar slot (if any) is freed, the emitted
code is `FlushRCode`, and `WFscalars` is preserved. -/
theorem FlushR_step (t : CacheState) (g : Nat) (hg : g < NUM_MIPSFPUREG) (HS : WFscalars t) :
    WFscalars (FlushR t g).1 ∧
    (FlushR t g).2 = FlushRCode t g ∧
    ((FlushR t g).1.mr g).loc = .ML_MEM ∧
    (∀ g', g' ≠ g → (FlushR t g).1.mr g' = t.mr g') ∧
    (FlushR t g).1.qr = t.qr ∧
    (∀ a, 32 ≤ a → (FlushR t g).1.ar a = t.ar a) ∧
    (∀ a, a < 32 → (t.ar a).mipsReg = (g : Int) →
      (FlushR t g).1.ar a = { mipsReg := -1, isDirty := false }) ∧
    (∀ a, a < 32 → (t.ar a).mipsReg ≠ (g : Int) → (FlushR t g).1.ar a = t.ar a) := by
  obtain ⟨HS1, HS2, HS3⟩ := HS
  cases hl : (t.mr g).loc
  case ML_IMM | ML_MEM =>
    have heq : FlushR t g = (setMr t g { t.mr g with loc := .ML_MEM, reg := INVALID_REG }, []) := by
      first
        | exact FlushR_imm t g hl
        | exact FlushR_mem t g hl
    have hnoslot : ∀ a, a < 32 → (t.ar a).mipsReg ≠ (g : Int) := by
      intro a ha hname
      have := (slot_names_mem t ⟨HS1, HS2, HS3⟩ a g ha hname).1
      rw [hl] at this
      cases this
    refine ⟨⟨?_, ?_, ?_⟩, ?_, ?_, ?_, ?_, ?_, ?_, ?_⟩
    · intro g' hg' hloc'
      rw [heq] at hloc'
      simp only [setMr_mr] at hloc'
      by_cases hgg : g' = g
      · rw [if_pos hgg] at hloc'
        cases hloc'
      · rw [if_neg hgg] at hloc'
        have := HS1 g' hg' hloc'
        rw [heq]
        unfold scalarRes quadRes at this ⊢
        simpa [setMr_mr, setMr_ar, hgg] using this
    · intro a ha
      have h2 := HS2 a ha
      rw [heq]
      simp only [setMr_ar]
      refine ⟨h2.1, ?_⟩
      intro hne
      obtain ⟨hp1, hp2, hp3, hp4⟩ := h2.2 hne
      have hgg : (t.ar a).mipsReg.toNat ≠ g := by
        intro hc
        refine hnoslot a ha ?_
        rw [← hc, Int.toNat_of_nonneg hp1]
      simp only [setMr_mr, if_neg hgg]
      exact ⟨hp1, hp2, hp3, hp4⟩
    · intro q hq
      rw [heq]
      exact HS3 q hq
    · rw [heq]
      simp [FlushRCode, hl]
    · rw [heq]
      simp [setMr_mr]
    · intro g' hg'
      rw [heq]
      simp [setMr_mr, hg']
    · rw [heq]
      rfl
    · intro a ha
      rw [heq]
      rfl
    · intro a ha hname
      exact absurd hname (hnoslot a ha)
    · intro a ha hname
      rw [heq]
      rfl
  case ML_ARMREG =>
    rcases HS1 g hg hl with hres | hres
    · -- scalar resident
      obtain ⟨h0, h32, hback⟩ := hres
      have hreg : (t.mr g).reg = (((t.mr g).reg.toNat : Nat) : Int) :=
        (Int.toNat_of_nonneg h0).symm
      have ha0 : (t.mr g).reg.toNat < 32 := by omega
      obtain ⟨hcode, harA, harO, hmrG, hmrO, hqr⟩ :=
        FlushR_scalar_spec t g ((t.mr g).reg.toNat) hl hreg ha0
      have hslot : ∀ a, a < 32 → (t.ar a).mipsReg = (g : Int) → a = (t.mr g).reg.toNat := by
        intro a ha hname
        have := (slot_names_mem t ⟨HS1, HS2, HS3⟩ a g ha hname).2
        omega
      have hbackA : (t.ar ((t.mr g).reg.toNat)).mipsReg = (g : Int) := hback
      refine ⟨⟨?_, ?_, ?_⟩, ?_, ?_, ?_, ?_, ?_, ?_, ?_⟩
      · intro g' hg' hloc'
        by_cases hgg : g' = g
        · subst hgg
          rw [hmrG] at hloc'
          cases hloc'
        · rw [hmrO g' hgg] at hloc'
          rcases HS1 g' hg' hloc' with ⟨j0, j32, jback⟩ | hqres
          · left
            have hslotne : (t.mr g').reg.toNat ≠ (t.mr g).reg.toNat := by
              intro hc
              have : (t.ar ((t.mr g).reg.toNat)).mipsReg = (g' : Int) := by
                rw [← hc]; exact jback
              rw [hbackA] at this
              have : g = g' := by omega
              exact hgg this.symm
            refine ⟨?_, ?_, ?_⟩ <;> rw [hmrO g' hgg]
            · exact j0
            · exact j32
            · rw [harO _ hslotne]
              exact jback
          · right
            unfold quadRes at hqres ⊢
            rw [hmrO g' hgg]
            exact hqres
      · intro a ha
        by_cases haa : a = (t.mr g).reg.toNat
        · subst haa
          rw [harA]
          refine ⟨fun _ => rfl, ?_⟩
          intro hc
          exact absurd rfl hc
        · rw [harO a haa]
          have h2 := HS2 a ha
          refine ⟨h2.1, ?_⟩
          intro hne
          obtain ⟨hp1, hp2, hp3, hp4⟩ := h2.2 hne
          have hgg : (t.ar a).mipsReg.toNat ≠ g := by
            intro hc
            refine haa (hslot a ha ?_)
            rw [← hc, Int.toNat_of_nonneg hp1]
          rw [hmrO _ hgg]
          exact ⟨hp1, hp2, hp3, hp4⟩
      · intro q hq
        rw [hqr]
        exact HS3 q hq
      · rw [hcode]
        have hnq : ¬((Q0 : Int) ≤ (t.mr g).reg ∧ (t.mr g).reg ≤ (Q0 : Int) + 15) := by
          simp only [Q0]
          omega
        simp [FlushRCode, hl, hnq]
      · rw [hmrG]
      · exact hmrO
      · exact hqr
      · intro a ha
        refine harO a ?_
        omega
      · intro a ha hname
        rw [hslot a ha hname]
        exact harA
      · intro a ha hname
        refine harO a ?_
        intro hc
        rw [hc] at hname
        exact hname hbackA
    · -- quad resident
      obtain ⟨hq0, hq15⟩ := hres
      have hq16 : ((t.mr g).reg - (Q0 : Int)).toNat < 16 := by
        simp only [Q0] at hq0 hq15 ⊢
        omega
      have hreg : (t.mr g).reg = ((Q0 + ((t.mr g).reg - (Q0 : Int)).toNat : Nat) : Int) := by
        simp only [Q0] at hq0 hq15 ⊢
        push_cast
        omega
      obtain ⟨hcode, har, hmrG, hmrO, hqr⟩ :=
        FlushR_quad_spec t g (((t.mr g).reg - (Q0 : Int)).toNat) hl hreg hq16
      have hnoslot : ∀ a, a < 32 → (t.ar a).mipsReg ≠ (g : Int) := by
        intro a ha hname
        have := (slot_names_mem t ⟨HS1, HS2, HS3⟩ a g ha hname).2
        simp only [Q0] at hq0
        omega
      have hclean : (t.qr (((t.mr g).reg - (Q0 : Int)).toNat)).isDirty = false :=
        HS3 _ hq16
      refine ⟨⟨?_, ?_, ?_⟩, ?_, ?_, ?_, ?_, ?_, ?_, ?_⟩
      · intro g' hg' hloc'
        by_cases hgg : g' = g
        · subst hgg
          rw [hmrG] at hloc'
          cases hloc'
        · rw [hmrO g' hgg] at hloc'
          rcases HS1 g' hg' hloc' with ⟨j0, j32, jback⟩ | hqres
          · left
            refine ⟨?_, ?_, ?_⟩ <;> rw [hmrO g' hgg]
            · exact j0
            · exact j32
            · rw [har]
              exact jback
          · right
            unfold quadRes at hqres ⊢
            rw [hmrO g' hgg]
            exact hqres
      · intro a ha
        rw [har]
        have h2 := HS2 a ha
        refine ⟨h2.1, ?_⟩
        intro hne
        obtain ⟨hp1, hp2, hp3, hp4⟩ := h2.2 hne
        have hgg : (t.ar a).mipsReg.toNat ≠ g := by
          intro hc
          refine hnoslot a ha ?_
          rw [← hc, Int.toNat_of_nonneg hp1]
        rw [hmrO _ hgg]
        exact ⟨hp1, hp2, hp3, hp4⟩
      · intro q hq
        rw [hqr]
        exact HS3 q hq
      · rw [hcode]
        have hyes : ((Q0 : Int) ≤ (t.mr g).reg ∧ (t.mr g).reg ≤ (Q0 : Int) + 15) := ⟨hq0, hq15⟩
        simp [FlushRCode, hl, hyes, hclean]
      · rw [hmrG]
      · exact hmrO
      · exact hqr
      · intro a ha
        rw [har]
      · intro a ha hname
        exact absurd hname (hnoslot a ha)
      · intro a ha hname
        rw [har]

/-- The guest walk of `FlushAll` over a duplicate-free guest list, under
`WFscalars`: every walked guest returns to memory, exactly the slots naming
a walked guest are freed, the quad table is untouched, and the emitted code
is the concatenation of the per-guest `FlushRCode` blocks read off the
initial state. -/
theorem flushGuests_spec (l : List Nat) :
    ∀ (t : CacheState), (∀ g ∈ l, g < NUM_MIPSFPUREG) → l.Nodup → WFscalars t →
    (∀ g ∈ l, ((runList FlushR t l).1.mr g).loc = .ML_MEM) ∧
    (∀ g, g ∉ l → (runList FlushR t l).1.mr g = t.mr g) ∧
    (∀ a, a < 32 → (∀ g ∈ l, (t.ar a).mipsReg ≠ (g : Int)) →
      (runList FlushR t l).1.ar a = t.ar a) ∧
    (∀ a, a < 32 → ∀ g ∈ l, (t.ar a).mipsReg = (g : Int) →
      (runList FlushR t l).1.ar a = { mipsReg := -1, isDirty := false }) ∧
    (∀ a, 32 ≤ a → (runList FlushR t l).1.ar a = t.ar a) ∧
    (runList FlushR t l).1.qr = t.qr ∧
    (runList FlushR t l).2 = joinCode (FlushRCode t) l ∧
    WFscalars (runList FlushR t l).1 := by
  induction l with
  | nil =>
    intro t hlt hnd HS
    refine ⟨?_, ?_, ?_, ?_, ?_, ?_, ?_, HS⟩ <;> simp [runList_nil, joinCode_nil]
  | cons g xs ih =>
    intro t hlt hnd HS
    have hg : g < NUM_MIPSFPUREG := hlt g (List.mem_cons_self g xs)
    obtain ⟨HW, hcode, hmloc, hmO, hqr, harHigh, harClear, harKeep⟩ := FlushR_step t g hg HS
    have hgxs : g ∉ xs := (List.nodup_cons.1 hnd).1
    obtain ⟨P1, P2, P3, P4, P5, P6, P7, P8⟩ :=
      ih (FlushR t g).1 (fun x hx => hlt x (List.mem_cons_of_mem g hx))
        (List.nodup_cons.1 hnd).2 HW
    rw [runList_cons]
    refine ⟨?_, ?_, ?_, ?_, ?_, ?_, ?_, P8⟩
    · intro g' hg'
      rcases List.mem_cons.1 hg' with rfl | hg'
      · show ((runList FlushR (FlushR t g').1 xs).1.mr g').loc = .ML_MEM
        rw [P2 g' hgxs]
        exact hmloc
      · exact P1 g' hg'
    · intro g' hg'
      have hne : g' ≠ g := fun hc => hg' (hc ▸ List.mem_cons_self g xs)
      have hnxs : g' ∉ xs := fun hc => hg' (List.mem_cons_of_mem g hc)
      show (runList FlushR (FlushR t g).1 xs).1.mr g' = t.mr g'
      rw [P2 g' hnxs, hmO g' hne]
    · intro a ha hnone
      have hng : (t.ar a).mipsReg ≠ (g : Int) := hnone g (List.mem_cons_self g xs)
      have hkeep := harKeep a ha hng
      show (runList FlushR (FlushR t g).1 xs).1.ar a = t.ar a
      rw [P3 a ha (fun g' hg' => by rw [hkeep]; exact hnone g' (List.mem_cons_of_mem g hg')),
        hkeep]
    · intro a ha g' hg' hname
      rcases List.mem_cons.1 hg' with rfl | hg'
      · have hclear := harClear a ha hname
        show (runList FlushR (FlushR t g').1 xs).1.ar a = { mipsReg := -1, isDirty := false }
        rw [P3 a ha (fun g'' hg'' => by
          rw [hclear]; show (-1 : Int) ≠ (g'' : Int); omega), hclear]
      · have hne : (t.ar a).mipsReg ≠ (g : Int) := by
          rw [hname]
          intro hc
          have : g' = g := by exact_mod_cast hc
          exact hgxs (this ▸ hg')
        have hkeep := harKeep a ha hne
        show (runList FlushR (FlushR t g).1 xs).1.ar a = { mipsReg := -1, isDirty := false }
        exact P4 a ha g' hg' (by rw [hkeep]; exact hname)
    · intro a ha32
      show (runList FlushR (FlushR t g).1 xs).1.ar a = t.ar a
      rw [P5 a ha32, harHigh a ha32]
    · show (runList FlushR (FlushR t g).1 xs).1.qr = t.qr
      rw [P6, hqr]
    · show (FlushR t g).2 ++ (runList FlushR (FlushR t g).1 xs).2 =
        joinCode (FlushRCode t) (g :: xs)
      rw [joinCode_cons, hcode, P7]
      congr 1
      refine joinCode_congr _ _ xs ?_
      intro x hx
      have hxg : x ≠ g := fun hc => hgxs (hc ▸ hx)
      refine FlushRCode_congr t (FlushR t g).1 x (hmO x hxg) hqr ?_
      intro hloc htest
      rcases HS.1 x (hlt x (List.mem_cons_of_mem g hx)) hloc with ⟨j0, j32, jback⟩ | hqres
      · have hlt32 : (t.mr x).reg.toNat < 32 := by omega
        refine harKeep _ hlt32 ?_
        rw [jback]
        intro hc
        have : x = g := by exact_mod_cast hc
        exact hxg this
      · exact absurd hqres htest

/-! ### The quad walk of FlushAll -/

theorem QFlushCodeOf_congr (t t1 : CacheState) (q : Nat) (h : t1.qr q = t.qr q) :
    QFlushCodeOf t1 q = QFlushCodeOf t q := by
  unfold QFlushCodeOf
  rw [h]

/-- One step of the quad walk of `FlushAll`, under `WFquads`: a dirty quad
is cleared and its lane occupants returned to memory, a clean quad is left
alone, the emitted code is `QFlushCodeOf`, and `WFquads` is preserved. -/
theorem QFlush_step (t : CacheState) (q : Nat) (hq16 : q < 16) (HQ : WFquads t) :
    WFquads (QFlush t q).1 ∧
    (QFlush t q).2 = QFlushCodeOf t q ∧
    ((t.qr q).isDirty = true →
      (QFlush t q).1.qr q = { t.qr q with isDirty := false, mipsVec := -1 }) ∧
    ((t.qr q).isDirty = false → (QFlush t q).1.qr q = t.qr q) ∧
    (∀ q', q' ≠ q → (QFlush t q).1.qr q' = t.qr q') ∧
    (QFlush t q).1.ar = t.ar ∧
    ((t.qr q).isDirty = true →
      ∀ g, (∃ i ∈ List.range (GetNumVectorElements (t.qr q).sz), 32 + (t.qr q).vregs i = g) →
      (QFlush t q).1.mr g = { t.mr g with loc := .ML_MEM, lane := -1 }) ∧
    (∀ g, ((t.qr q).isDirty = true →
        ∀ i ∈ List.range (GetNumVectorElements (t.qr q).sz), 32 + (t.qr q).vregs i ≠ g) →
      (QFlush t q).1.mr g = t.mr g) := by
  cases hd : (t.qr q).isDirty
  · have heq := QFlush_clean t q hd
    refine ⟨?_, ?_, ?_, ?_, ?_, ?_, ?_, ?_⟩
    · rw [heq]
      exact HQ
    · rw [heq]
      simp [QFlushCodeOf, hd]
    · intro hc
      cases hc
    · intro hc
      rw [heq]
    · intro q' hq'
      rw [heq]
    · rw [heq]
    · intro hc
      cases hc
    · intro g hc
      rw [heq]
  · have hmap : MappableQ q = true := (HQ q hq16 hd).1
    obtain ⟨hqrQ, hqrO, har, hmrHit, hmrMiss⟩ := QFlush_dirty_spec t q hmap hd
    have hlanes := (HQ q hq16 hd).2
    refine ⟨?_, ?_, ?_, ?_, ?_, har, ?_, ?_⟩
    · intro q' hq'16 hd'
      by_cases hqq : q' = q
      · subst hqq
        rw [hqrQ] at hd'
        cases hd'
      · rw [hqrO q' hqq] at hd'
        have hl' := HQ q' hq'16 hd'
        refine ⟨hl'.1, ?_⟩
        intro i hi
        rw [hqrO q' hqq]
        have hi' := hl'.2 i (by rw [hqrO q' hqq] at hi; exact hi)
        obtain ⟨hv128, hloc', hreg', hlane'⟩ := hi'
        have hne : ∀ j ∈ List.range (GetNumVectorElements (t.qr q).sz),
            32 + (t.qr q).vregs j ≠ (t.qr q').vregs i + 32 := by
          intro j hj hc
          have hj' := hlanes j (List.mem_range.1 hj)
          have hreg'' := hj'.2.2.1
          have : 32 + (t.qr q).vregs j = (t.qr q).vregs j + 32 := by omega
          rw [this] at hc
          rw [hc] at hreg''
          rw [hreg'] at hreg''
          have hcast : Q0 + q' = Q0 + q := by exact_mod_cast hreg''
          exact hqq (by omega)
        rw [hmrMiss _ hne]
        exact ⟨hv128, hloc', hreg', hlane'⟩
    · exact QFlush_dirty_code t q hmap hd ▸ by simp [QFlushCodeOf, hmap, hd]
    · intro hc
      exact hqrQ
    · intro hc
      cases hc
    · exact hqrO
    · intro hc
      exact hmrHit
    · intro g hmiss
      exact hmrMiss g (hmiss rfl)

/-- The quad walk over a duplicate-free quad list, under `WFquads`: dirty
quads are cleared with their lane occupants returned to memory, clean quads
and the scalar table are untouched, and the emitted code is the
concatenation of the per-quad `QFlushCodeOf` blocks read off the initial
state. -/
theorem quadWalk_spec (l : List Nat) :
    ∀ (t : CacheState), (∀ q ∈ l, q < 16) → l.Nodup → WFquads t →
    (∀ q ∈ l, (t.qr q).isDirty = true →
      (runList QFlush t l).1.qr q = { t.qr q with isDirty := false, mipsVec := -1 }) ∧
    (∀ q ∈ l, (t.qr q).isDirty = false → (runList QFlush t l).1.qr q = t.qr q) ∧
    (∀ q, q ∉ l → (runList QFlush t l).1.qr q = t.qr q) ∧
    (runList QFlush t l).1.ar = t.ar ∧
    (∀ g q, q ∈ l → (t.qr q).isDirty = true →
      (∃ i ∈ List.range (GetNumVectorElements (t.qr q).sz), 32 + (t.qr q).vregs i = g) →
      (runList QFlush t l).1.mr g = { t.mr g with loc := .ML_MEM, lane := -1 }) ∧
    (∀ g, (∀ q ∈ l, (t.qr q).isDirty = true →
        ∀ i ∈ List.range (GetNumVectorElements (t.qr q).sz), 32 + (t.qr q).vregs i ≠ g) →
      (runList QFlush t l).1.mr g = t.mr g) ∧
    (runList QFlush t l).2 = joinCode (QFlushCodeOf t) l ∧
    WFquads (runList QFlush t l).1 := by
  induction l with
  | nil =>
    intro t hlt hnd HQ
    refine ⟨?_, ?_, ?_, ?_, ?_, ?_, ?_, HQ⟩ <;> simp [runList_nil, joinCode_nil]
  | cons q xs ih =>
    intro t hlt hnd HQ
    have hq16 : q < 16 := hlt q (List.mem_cons_self q xs)
    obtain ⟨HW, hcode, hqD, hqC, hqO, har, hmrHit, hmrMiss⟩ := QFlush_step t q hq16 HQ
    have hqxs : q ∉ xs := (List.nodup_cons.1 hnd).1
    obtain ⟨Q1, Q2, Q3, Q4, Q5, Q6, Q7, Q8⟩ :=
      ih (QFlush t q).1 (fun x hx => hlt x (List.mem_cons_of_mem q hx))
        (List.nodup_cons.1 hnd).2 HW
    have hqrStable : ∀ q', q' ∈ xs → (QFlush t q).1.qr q' = t.qr q' := by
      intro q' hq'
      exact hqO q' (fun hc => hqxs (hc ▸ hq'))
    rw [runList_cons]
    refine ⟨?_, ?_, ?_, ?_, ?_, ?_, ?_, Q8⟩
    · intro q' hq' hd'
      rcases List.mem_cons.1 hq' with rfl | hq'
      · show (runList QFlush (QFlush t q').1 xs).1.qr q' = _
        rw [Q3 q' hqxs, hqD hd']
      · show (runList QFlush (QFlush t q).1 xs).1.qr q' = _
        rw [show ({ t.qr q' with isDirty := false, mipsVec := -1 } : FPURegQuad) =
            { (QFlush t q).1.qr q' with isDirty := false, mipsVec := -1 } by rw [hqrStable q' hq']]
        exact Q1 q' hq' (by rw [hqrStable q' hq']; exact hd')
    · intro q' hq' hd'
      rcases List.mem_cons.1 hq' with rfl | hq'
      · show (runList QFlush (QFlush t q').1 xs).1.qr q' = t.qr q'
        rw [Q3 q' hqxs, hqC hd']
      · show (runList QFlush (QFlush t q).1 xs).1.qr q' = t.qr q'
        rw [Q2 q' hq' (by rw [hqrStable q' hq']; exact hd'), hqrStable q' hq']
    · intro q' hq'
      have hne : q' ≠ q := fun hc => hq' (hc ▸ List.mem_cons_self q xs)
      have hnxs : q' ∉ xs := fun hc => hq' (List.mem_cons_of_mem q hc)
      show (runList QFlush (QFlush t q).1 xs).1.qr q' = t.qr q'
      rw [Q3 q' hnxs, hqO q' hne]
    · show (runList QFlush (QFlush t q).1 xs).1.ar = t.ar
      rw [Q4, har]
    · intro g q' hq' hd' hhit
      rcases List.mem_cons.1 hq' with rfl | hq'
      · show (runList QFlush (QFlush t q').1 xs).1.mr g = _
        have hstep := hmrHit hd' g hhit
        have hmiss2 : ∀ q'' ∈ xs, ((QFlush t q').1.qr q'').isDirty = true →
            ∀ i ∈ List.range (GetNumVectorElements ((QFlush t q').1.qr q'').sz),
              32 + ((QFlush t q').1.qr q'').vregs i ≠ g := by
          intro q'' hq'' hd'' i hi hc
          rw [hqrStable q'' hq''] at hd'' hi hc
          obtain ⟨i0, hi0, hi0g⟩ := hhit
          have hb1 := ((HQ q' hq16 hd').2 i0 (List.mem_range.1 hi0)).2.2.1
          have hb2 := ((HQ q'' (hlt q'' (List.mem_cons_of_mem q' hq'')) hd'').2 i
            (List.mem_range.1 hi)).2.2.1
          have e1 : (t.qr q').vregs i0 + 32 = g := by omega
          have e2 : (t.qr q'').vregs i + 32 = g := by omega
          rw [e1] at hb1
          rw [e2] at hb2
          rw [hb1] at hb2
          have hcast : Q0 + q' = Q0 + q'' := by exact_mod_cast hb2
          have hqe : q'' = q' := by omega
          exact hqxs (hqe ▸ hq'')
        rw [Q6 g hmiss2, hstep]
      · have hnotq : (t.qr q).isDirty = true →
            ∀ i ∈ List.range (GetNumVectorElements (t.qr q).sz), 32 + (t.qr q).vregs i ≠ g := by
          intro hdq i hi hc
          obtain ⟨i0, hi0, hi0g⟩ := hhit
          have hb1 := ((HQ q' (hlt q' (List.mem_cons_of_mem q hq')) hd').2 i0
            (List.mem_range.1 hi0)).2.2.1
          have hb2 := ((HQ q hq16 hdq).2 i (List.mem_range.1 hi)).2.2.1
          have e1 : (t.qr q').vregs i0 + 32 = g := by omega
          have e2 : (t.qr q).vregs i + 32 = g := by omega
          rw [e1] at hb1
          rw [e2] at hb2
          rw [hb1] at hb2
          have hcast : Q0 + q' = Q0 + q := by exact_mod_cast hb2
          have hqe : q = q' := by omega
          exact hqxs (hqe ▸ hq')
        have hstep := hmrMiss g hnotq
        show (runList QFlush (QFlush t q).1 xs).1.mr g = _
        rw [show ({ t.mr g with loc := .ML_MEM, lane := -1 } : FPURegMIPS) =
            { (QFlush t q).1.mr g with loc := .ML_MEM, lane := -1 } by rw [hstep]]
        refine Q5 g q' hq' ?_ ?_
        · rw [hqrStable q' hq']
          exact hd'
        · rw [hqrStable q' hq']
          exact hhit
    · intro g hmiss
      have hstep := hmrMiss g (fun hdq => hmiss q (List.mem_cons_self q xs) hdq)
      show (runList QFlush (QFlush t q).1 xs).1.mr g = t.mr g
      rw [Q6 g ?_, hstep]
      intro q'' hq'' hd'' i hi hc
      rw [hqrStable q'' hq''] at hd'' hi hc
      exact hmiss q'' (List.mem_cons_of_mem q hq'') hd'' i hi hc
    · show (QFlush t q).2 ++ (runList QFlush (QFlush t q).1 xs).2 =
        joinCode (QFlushCodeOf t) (q :: xs)
      rw [joinCode_cons, hcode, Q7]
      congr 1
      exact joinCode_congr _ _ xs (fun x hx => QFlushCodeOf_congr t _ x (hqrStable x hx))

/-! ### The temp-discard walk of FlushAll -/

/-- One step of the temp-discard walk: the guest returns to memory with its
locks cleared, its scalar slot (if any) is freed, and the backpointer
discipline survives. -/
theorem DiscardR_step (t : CacheState) (g : Nat)
    (hres : (t.mr g).loc = .ML_ARMREG → scalarRes t g)
    (HA : ARBack t) :
    ((DiscardR t g).mr g).loc = .ML_MEM ∧
    (∀ g', g' ≠ g → (DiscardR t g).mr g' = t.mr g') ∧
    (DiscardR t g).qr = t.qr ∧
    (∀ a, 32 ≤ a → (DiscardR t g).ar a = t.ar a) ∧
    (∀ a, a < 32 → (t.ar a).mipsReg = (g : Int) →
      (DiscardR t g).ar a = { mipsReg := -1, isDirty := false }) ∧
    (∀ a, a < 32 → (t.ar a).mipsReg ≠ (g : Int) → (DiscardR t g).ar a = t.ar a) ∧
    ARBack (DiscardR t g) := by
  by_cases hl : (t.mr g).loc = .ML_ARMREG
  · obtain ⟨h0, h32, hback⟩ := hres hl
    have hreg : (t.mr g).reg = (((t.mr g).reg.toNat : Nat) : Int) :=
      (Int.toNat_of_nonneg h0).symm
    have ha0 : (t.mr g).reg.toNat < 32 := by omega
    obtain ⟨harA, harO, hmrG, hmrO, hqr⟩ := DiscardR_arm_spec t g ((t.mr g).reg.toNat) hl hreg
    have hslot : ∀ a, a < 32 → (t.ar a).mipsReg = (g : Int) → a = (t.mr g).reg.toNat := by
      intro a ha hname
      have hne : (t.ar a).mipsReg ≠ -1 := by
        rw [hname]
        intro hc
        omega
      obtain ⟨-, -, -, hr⟩ := HA a ha hne
      rw [hname] at hr
      simp only [Int.toNat_natCast] at hr
      omega
    refine ⟨?_, hmrO, hqr, ?_, ?_, ?_, ?_⟩
    · rw [hmrG]
    · intro a ha32
      refine harO a ?_
      omega
    · intro a ha hname
      rw [hslot a ha hname]
      exact harA
    · intro a ha hname
      refine harO a ?_
      intro hc
      rw [hc] at hname
      exact hname hback
    · intro a ha hne
      by_cases haa : a = (t.mr g).reg.toNat
      · subst haa
        rw [harA] at hne
        exact absurd rfl hne
      · rw [harO a haa] at hne ⊢
        obtain ⟨hp1, hp2, hp3, hp4⟩ := HA a ha hne
        have hgg : (t.ar a).mipsReg.toNat ≠ g := by
          intro hc
          refine haa (hslot a ha ?_)
          rw [← hc, Int.toNat_of_nonneg hp1]
        rw [hmrO _ hgg]
        exact ⟨hp1, hp2, hp3, hp4⟩
  · have heq := DiscardR_notarm t g hl
    have hnoslot : ∀ a, a < 32 → (t.ar a).mipsReg ≠ (g : Int) := by
      intro a ha hname
      have hne : (t.ar a).mipsReg ≠ -1 := by
        rw [hname]
        intro hc
        omega
      obtain ⟨-, -, hl', -⟩ := HA a ha hne
      rw [hname] at hl'
      simp only [Int.toNat_natCast] at hl'
      exact hl hl'
    refine ⟨?_, ?_, ?_, ?_, ?_, ?_, ?_⟩
    · rw [heq]
      simp [setMr_mr]
    · intro g' hg'
      rw [heq]
      simp [setMr_mr, hg']
    · rw [heq]
      rfl
    · intro a ha
      rw [heq]
      rfl
    · intro a ha hname
      exact absurd hname (hnoslot a ha)
    · intro a ha hname
      rw [heq]
      rfl
    · intro a ha hne
      rw [heq] at hne ⊢
      have hne' : (t.ar a).mipsReg ≠ -1 := hne
      obtain ⟨hp1, hp2, hp3, hp4⟩ := HA a ha hne'
      have hgg : (t.ar a).mipsReg.toNat ≠ g := by
        intro hc
        refine hnoslot a ha ?_
        rw [← hc, Int.toNat_of_nonneg hp1]
      simp only [setMr_mr, setMr_ar, if_neg hgg]
      exact ⟨hp1, hp2, hp3, hp4⟩

/-- The temp-discard walk over a duplicate-free guest list: every walked
guest goes to memory, exactly the slots naming a walked guest are freed,
the quad table is untouched, and the backpointer discipline survives. -/
theorem discardWalk_spec (l : List Nat) :
    ∀ (t : CacheState), l.Nodup →
    (∀ g ∈ l, (t.mr g).loc = .ML_ARMREG → scalarRes t g) → ARBack t →
    (∀ g ∈ l, ((runList (fun u i => (DiscardR u i, [])) t l).1.mr g).loc = .ML_MEM) ∧
    (∀ g, g ∉ l → (runList (fun u i => (DiscardR u i, [])) t l).1.mr g = t.mr g) ∧
    (runList (fun u i => (DiscardR u i, [])) t l).1.qr = t.qr ∧
    (∀ a, 32 ≤ a → (runList (fun u i => (DiscardR u i, [])) t l).1.ar a = t.ar a) ∧
    (∀ a, a < 32 → ∀ g ∈ l, (t.ar a).mipsReg = (g : Int) →
      (runList (fun u i => (DiscardR u i, [])) t l).1.ar a = { mipsReg := -1, isDirty := false }) ∧
    (∀ a, a < 32 → (∀ g ∈ l, (t.ar a).mipsReg ≠ (g : Int)) →
      (runList (fun u i => (DiscardR u i, [])) t l).1.ar a = t.ar a) ∧
    (runList (fun u i => (DiscardR u i, [])) t l).2 = [] ∧
    ARBack (runList (fun u i => (DiscardR u i, [])) t l).1 := by
  induction l with
  | nil =>
    intro t hnd hres HA
    refine ⟨?_, ?_, ?_, ?_, ?_, ?_, ?_, HA⟩ <;> simp [runList_nil]
  | cons g xs ih =>
    intro t hnd hres HA
    obtain ⟨hmloc, hmO, hqr, harHigh, harClear, harKeep, HA1⟩ :=
      DiscardR_step t g (hres g (List.mem_cons_self g xs)) HA
    have hgxs : g ∉ xs := (List.nodup_cons.1 hnd).1
    have hres1 : ∀ g' ∈ xs, ((DiscardR t g).mr g').loc = .ML_ARMREG → scalarRes (DiscardR t g) g' := by
      intro g' hg' hloc'
      have hne : g' ≠ g := fun hc => hgxs (hc ▸ hg')
      rw [hmO g' hne] at hloc'
      obtain ⟨j0, j32, jback⟩ := hres g' (List.mem_cons_of_mem g hg') hloc'
      have hlt32 : (t.mr g').reg.toNat < 32 := by omega
      refine ⟨?_, ?_, ?_⟩ <;> rw [hmO g' hne]
      · exact j0
      · exact j32
      · rw [harKeep _ hlt32 ?_]
        · exact jback
        · rw [jback]
          intro hc
          have : g' = g := by exact_mod_cast hc
          exact hne this
    obtain ⟨D1, D2, D3, D4, D5, D6, D7, D8⟩ :=
      ih (DiscardR t g) (List.nodup_cons.1 hnd).2 hres1 HA1
    rw [runList_cons]
    refine ⟨?_, ?_, ?_, ?_, ?_, ?_, ?_, D8⟩
    · intro g' hg'
      rcases List.mem_cons.1 hg' with rfl | hg'
      · show ((runList _ (DiscardR t g') xs).1.mr g').loc = .ML_MEM
        rw [D2 g' hgxs]
        exact hmloc
      · exact D1 g' hg'
    · intro g' hg'
      have hne : g' ≠ g := fun hc => hg' (hc ▸ List.mem_cons_self g xs)
      have hnxs : g' ∉ xs := fun hc => hg' (List.mem_cons_of_mem g hc)
      show (runList _ (DiscardR t g) xs).1.mr g' = t.mr g'
      rw [D2 g' hnxs, hmO g' hne]
    · show (runList _ (DiscardR t g) xs).1.qr = t.qr
      rw [D3, hqr]
    · intro a ha32
      show (runList _ (DiscardR t g) xs).1.ar a = t.ar a
      rw [D4 a ha32, harHigh a ha32]
    · intro a ha g' hg' hname
      rcases List.mem_cons.1 hg' with rfl | hg'
      · have hclear := harClear a ha hname
        show (runList _ (DiscardR t g') xs).1.ar a = { mipsReg := -1, isDirty := false }
        rw [D6 a ha (fun g'' hg'' => by
          rw [hclear]; show (-1 : Int) ≠ (g'' : Int); omega), hclear]
      · have hne : (t.ar a).mipsReg ≠ (g : Int) := by
          rw [hname]
          intro hc
          have : g' = g := by exact_mod_cast hc
          exact hgxs (this ▸ hg')
        have hkeep := harKeep a ha hne
        show (runList _ (DiscardR t g) xs).1.ar a = { mipsReg := -1, isDirty := false }
        exact D5 a ha g' hg' (by rw [hkeep]; exact hname)
    · intro a ha hnone
      have hng : (t.ar a).mipsReg ≠ (g : Int) := hnone g (List.mem_cons_self g xs)
      have hkeep := harKeep a ha hng
      show (runList _ (DiscardR t g) xs).1.ar a = t.ar a
      rw [D6 a ha (fun g' hg' => by rw [hkeep]; exact hnone g' (List.mem_cons_of_mem g hg')),
        hkeep]
    · show [] ++ (runList _ (DiscardR t g) xs).2 = []
      rw [D7]
      rfl

/-! ### Write accounting -/

theorem writesFrom_append (a : List Instr) :
    ∀ (b : List Instr) (r0 : Nat),
      writesFrom r0 (a ++ b) = writesFrom r0 a ++ writesFrom (r0After r0 a) b := by
  induction a with
  | nil => intro b r0; rfl
  | cons x xs ih =>
    intro b r0
    cases x <;> simp [writesFrom, r0After, ih, List.append_assoc]

theorem count_map_eq_countP {α β : Type} [DecidableEq β] (f : α → β) (l : List α) (x : β) :
    (l.map f).count x = l.countP (fun b => f b == x) := by
  induction l with
  | nil => rfl
  | cons y ys ih =>
    by_cases hy : f y = x
    · simp [List.count_cons, List.countP_cons, hy, ih]
    · simp [List.count_cons, List.countP_cons, hy, ih]

theorem countP_range_zero (p : Nat → Bool) (n : Nat)
    (h : ∀ i, i < n → p i = false) : (List.range n).countP p = 0 := by
  rw [List.countP_eq_zero]
  intro i hi
  simp [h i (List.mem_range.1 hi)]

theorem countP_range_unique (p : Nat → Bool) (n i0 : Nat) (hi0 : i0 < n)
    (hp : p i0 = true) (ho : ∀ i, i < n → i ≠ i0 → p i = false) :
    (List.range n).countP p = 1 := by
  induction n with
  | zero => omega
  | succ m ih =>
    rw [List.range_succ, List.countP_append]
    by_cases hm : i0 = m
    · subst hm
      rw [countP_range_zero p i0 (fun i hi => ho i (by omega) (by omega))]
      simp [hp]
    · rw [ih (by omega)]
      · have : p m = false := ho m (by omega) (Ne.symm (by omega))
        simp [this]
      · intro i hi hne
        exact ho i (by omega) hne

theorem writesFrom_joinCode (f : Nat → List Instr) (l : List Nat)
    (hind : ∀ q ∈ l, ∀ r1 r2 : Nat, writesFrom r1 (f q) = writesFrom r2 (f q)) :
    ∀ r0 : Nat, writesFrom r0 (joinCode f l) = joinCode (fun q => writesFrom 0 (f q)) l := by
  induction l with
  | nil => intro r0; rfl
  | cons x xs ih =>
    intro r0
    rw [joinCode_cons, joinCode_cons, writesFrom_append,
      hind x (List.mem_cons_self x xs) r0 0,
      ih (fun q hq r1 r2 => hind q (List.mem_cons_of_mem x hq) r1 r2)]

/-- Offsets are injective on the guest file. -/
theorem GetMipsRegOffset_inj (g g' : Nat) (hg : g < NUM_MIPSFPUREG) (hg' : g' < NUM_MIPSFPUREG)
    (h : GetMipsRegOffset g = GetMipsRegOffset g') : g = g' := by
  rw [GetMipsRegOffset_eq g hg, GetMipsRegOffset_eq g' hg'] at h
  omega

theorem GetMipsRegOffsetV_eq_off (v : Nat) : GetMipsRegOffsetV v = GetMipsRegOffset (v + 32) :=
  rfl

/-- The slots written by the store block of a dirty quad flush: exactly the
memory slots of its live lanes, in lane order, whatever `R0` held before. -/
theorem qFlushStoreCode_writes (q : Nat) (sz : VectorSize) (v : Nat → Nat)
    (hv : ∀ i, i < GetNumVectorElements sz → v i < 128) (r0 : Nat) :
    writesFrom r0 (qFlushStoreCode q sz v) =
      (List.range (GetNumVectorElements sz)).map (fun i => GetMipsRegOffsetV (v i)) := by
  have hoff : ∀ w, w < 128 → GetMipsRegOffsetV w = (w + 64) * 4 := by
    intro w hw
    rw [GetMipsRegOffsetV_eq_off, GetMipsRegOffset_eq (w + 32) (by simp [NUM_MIPSFPUREG]; omega)]
  cases sz
  · rfl
  · -- V_Single
    rw [show GetNumVectorElements VectorSize.V_Single = 1 from rfl,
      show List.range 1 = [0] from rfl]
    simp [qFlushStoreCode, writesFrom]
  · -- V_Pair
    have h0 := hv 0 (by rw [show GetNumVectorElements VectorSize.V_Pair = 2 from rfl]; omega)
    have h1 := hv 1 (by rw [show GetNumVectorElements VectorSize.V_Pair = 2 from rfl]; omega)
    rw [show GetNumVectorElements VectorSize.V_Pair = 2 from rfl,
      show List.range 2 = [0, 1] from rfl]
    by_cases hc : v 1 = v 0 + 1
    · simp only [qFlushStoreCode, if_pos hc]
      have lhs : writesFrom r0
          [Instr.addOff (GetMipsRegOffsetV (v 0)), Instr.vst1 (QuadAsD q) 1 false] =
          [GetMipsRegOffsetV (v 0), GetMipsRegOffsetV (v 0) + 4] := by
        simp [writesFrom, show List.range 2 = [0, 1] from rfl]
      rw [lhs]
      simp only [List.map]
      rw [hoff (v 0) h0, hoff (v 1) h1, hc]
      simp only [List.cons.injEq, and_true, true_and]
      omega
    · simp only [qFlushStoreCode, if_neg hc]
      simp [writesFrom]
  · -- V_Triple
    have h0 := hv 0 (by rw [show GetNumVectorElements VectorSize.V_Triple = 3 from rfl]; omega)
    have h1 := hv 1 (by rw [show GetNumVectorElements VectorSize.V_Triple = 3 from rfl]; omega)
    have h2 := hv 2 (by rw [show GetNumVectorElements VectorSize.V_Triple = 3 from rfl]; omega)
    rw [show GetNumVectorElements VectorSize.V_Triple = 3 from rfl,
      show List.range 3 = [0, 1, 2] from rfl]
    by_cases hc : v 2 = v 1 + 1 ∧ v 1 = v 0 + 1
    · simp only [qFlushStoreCode, if_pos hc]
      have lhs : writesFrom r0
          [Instr.addOff (GetMipsRegOffsetV (v 0)), Instr.vst1 (QuadAsD q) 1 true,
           Instr.vst1lane (QuadAsQ q) 2] =
          [GetMipsRegOffsetV (v 0), GetMipsRegOffsetV (v 0) + 4,
           GetMipsRegOffsetV (v 0) + 8] := by
        simp [writesFrom, show List.range 2 = [0, 1] from rfl]
      rw [lhs]
      simp only [List.map]
      rw [hoff (v 0) h0, hoff (v 1) h1, hoff (v 2) h2, hc.1, hc.2]
      simp only [List.cons.injEq, and_true, true_and]
      omega
    · simp only [qFlushStoreCode, if_neg hc]
      simp [writesFrom]
  · -- V_Quad
    have h0 := hv 0 (by rw [show GetNumVectorElements VectorSize.V_Quad = 4 from rfl]; omega)
    have h1 := hv 1 (by rw [show GetNumVectorElements VectorSize.V_Quad = 4 from rfl]; omega)
    have h2 := hv 2 (by rw [show GetNumVectorElements VectorSize.V_Quad = 4 from rfl]; omega)
    have h3 := hv 3 (by rw [show GetNumVectorElements VectorSize.V_Quad = 4 from rfl]; omega)
    rw [show GetNumVectorElements VectorSize.V_Quad = 4 from rfl,
      show List.range 4 = [0, 1, 2, 3] from rfl]
    by_cases hc : v 3 = v 2 + 1 ∧ v 2 = v 1 + 1 ∧ v 1 = v 0 + 1
    · simp only [qFlushStoreCode, if_pos hc]
      have lhs : writesFrom r0
          [Instr.addOff (GetMipsRegOffsetV (v 0)), Instr.vst1 (QuadAsD q) 2 false] =
          [GetMipsRegOffsetV (v 0), GetMipsRegOffsetV (v 0) + 4,
           GetMipsRegOffsetV (v 0) + 8, GetMipsRegOffsetV (v 0) + 12] := by
        simp [writesFrom, show List.range 4 = [0, 1, 2, 3] from rfl]
      rw [lhs]
      simp only [List.map]
      rw [hoff (v 0) h0, hoff (v 1) h1, hoff (v 2) h2, hoff (v 3) h3,
        hc.1, hc.2.1, hc.2.2]
      simp only [List.cons.injEq, and_true, true_and]
      omega
    · simp only [qFlushStoreCode, if_neg hc]
      simp [writesFrom]

/-- Witness for C8 (amended) at the concrete dirty triple `[10, 11, 20]`:
the non-consecutive triple branch emits the three lane stores. -/
theorem c8_qflush_store_selection_witness :
    (c8State.qr 4).sz = .V_Triple ∧
    ¬((c8State.qr 4).vregs 2 = (c8State.qr 4).vregs 1 + 1 ∧
      (c8State.qr 4).vregs 1 = (c8State.qr 4).vregs 0 + 1) ∧
    (QFlush c8State 4).2 =
      [.addOff (GetMipsRegOffsetV ((c8State.qr 4).vregs 0)), .vst1lane (QuadAsQ 4) 0,
       .addOff (GetMipsRegOffsetV ((c8State.qr 4).vregs 1)), .vst1lane (QuadAsQ 4) 1,
       .addOff (GetMipsRegOffsetV ((c8State.qr 4).vregs 2)), .vst1lane (QuadAsQ 4) 2] :=
  ⟨by decide, by decide,
   (c8_qflush_store_selection c8State 4 (by decide) (by decide)).2.2.2.2.1
     (by decide) (by decide)⟩

/-- With every quad clean, the stores of a `FlushRCode` block hit exactly the
slot of a dirty scalar-resident guest, whatever `R0` held before it. -/
theorem FlushRCode_writes (t : CacheState)
    (hq : ∀ q, q < 16 → (t.qr q).isDirty = false) (g : Nat) (r : Nat) :
    writesFrom r (FlushRCode t g) =
      if residentDirty t g = true then [GetMipsRegOffset g] else [] := by
  unfold FlushRCode residentDirty
  cases hloc : (t.mr g).loc with
  | ML_IMM => simp [writesFrom]
  | ML_MEM => simp [writesFrom]
  | ML_ARMREG =>
    by_cases hrange : (Q0 : Int) ≤ (t.mr g).reg ∧ (t.mr g).reg ≤ (Q0 : Int) + 15
    · have hq16 : ((t.mr g).reg - (Q0 : Int)).toNat < 16 := by
        have h1 := hrange.1
        have h2 := hrange.2
        simp only [Q0] at h1 h2
        omega
      rw [if_pos hrange, if_pos hrange, hq (((t.mr g).reg - (Q0 : Int)).toNat) hq16]
      simp [writesFrom]
    · rw [if_neg hrange, if_neg hrange]
      by_cases hd : (t.ar (t.mr g).reg.toNat).isDirty = true
      · simp [writesFrom, hd]
      · simp [writesFrom, hd]

/-- Counting the writes of the final guest walk of `FlushAll`: one write to
the slot of each dirty scalar-resident guest, none to any other slot. -/
theorem guestWrites_count (t : CacheState)
    (hq : ∀ q, q < 16 → (t.qr q).isDirty = false) (g : Nat) (hg : g < NUM_MIPSFPUREG)
    (r : Nat) :
    (writesFrom r (joinCode (FlushRCode t) (List.range NUM_MIPSFPUREG))).count
        (GetMipsRegOffset g) =
      if residentDirty t g = true then 1 else 0 := by
  rw [writesFrom_joinCode _ _ (fun q hm r1 r2 => by
      rw [FlushRCode_writes t hq q r1, FlushRCode_writes t hq q r2]),
    count_joinCode]
  have hcnt : ∀ g' ∈ List.range NUM_MIPSFPUREG, g' ≠ g →
      (writesFrom 0 (FlushRCode t g')).count (GetMipsRegOffset g) = 0 := by
    intro g' hm hne
    rw [FlushRCode_writes t hq g' 0]
    by_cases hd : residentDirty t g' = true
    · rw [if_pos hd]
      have hno : GetMipsRegOffset g' ≠ GetMipsRegOffset g := fun hc =>
        hne (GetMipsRegOffset_inj g' g (List.mem_range.1 hm) hg hc)
      simp [List.count_cons, hno]
    · rw [if_neg hd]
      rfl
  rw [sum_map_eq_single _ _ g (List.mem_range.2 hg) (List.nodup_range NUM_MIPSFPUREG) hcnt,
    FlushRCode_writes t hq g 0]
  by_cases hd : residentDirty t g = true
  · rw [if_pos hd, if_pos hd]
    simp
  · rw [if_neg hd, if_neg hd]
    rfl

/-- The writes of the quad walk per-quad block: a dirty quad writes the slots
of its lanes in lane order, a clean quad writes nothing. -/
theorem QFlushCodeOf_writes (t : CacheState) (HQ : WFquads t) (q : Nat) (hq16 : q < 16)
    (r : Nat) :
    writesFrom r (QFlushCodeOf t q) =
      if (t.qr q).isDirty = true then
        (List.range (GetNumVectorElements (t.qr q).sz)).map
          (fun i => GetMipsRegOffsetV ((t.qr q).vregs i))
      else [] := by
  unfold QFlushCodeOf
  by_cases hd : (t.qr q).isDirty = true
  · obtain ⟨hmap, hlanes⟩ := HQ q hq16 hd
    rw [if_pos ⟨hmap, hd⟩, if_pos hd]
    exact qFlushStoreCode_writes q _ _ (fun i hi => (hlanes i hi).1) r
  · rw [if_neg (fun hc => hd hc.2), if_neg hd]
    rfl

/-- The quad walk writes nothing to the slot of a guest that is not a live
lane of any dirty quad. -/
theorem quadWrites_count_miss (t : CacheState) (HQ : WFquads t) (g : Nat)
    (hg : g < NUM_MIPSFPUREG)
    (hmiss : ∀ q, q < 16 → (t.qr q).isDirty = true →
      ∀ i, i < GetNumVectorElements ((t.qr q).sz) → (t.qr q).vregs i + 32 ≠ g)
    (r : Nat) :
    (writesFrom r (joinCode (QFlushCodeOf t) (List.range 16))).count
      (GetMipsRegOffset g) = 0 := by
  rw [writesFrom_joinCode _ _ (fun q hm r1 r2 => by
      rw [QFlushCodeOf_writes t HQ q (List.mem_range.1 hm) r1,
        QFlushCodeOf_writes t HQ q (List.mem_range.1 hm) r2]),
    count_joinCode]
  refine sum_map_eq_zero _ _ ?_
  intro q hm
  rw [QFlushCodeOf_writes t HQ q (List.mem_range.1 hm) 0]
  by_cases hd : (t.qr q).isDirty = true
  · rw [if_pos hd, count_map_eq_countP]
    refine countP_range_zero _ _ ?_
    intro i hi
    have hl := (HQ q (List.mem_range.1 hm) hd).2 i hi
    have hlt : (t.qr q).vregs i + 32 < NUM_MIPSFPUREG := by
      have h1 := hl.1
      simp only [NUM_MIPSFPUREG]
      omega
    have hno : GetMipsRegOffsetV ((t.qr q).vregs i) ≠ GetMipsRegOffset g := by
      rw [GetMipsRegOffsetV_eq_off]
      intro hc
      exact hmiss q (List.mem_range.1 hm) hd i hi (GetMipsRegOffset_inj _ _ hlt hg hc)
    simp [hno]
  · rw [if_neg hd]
    rfl

/-- The quad walk writes the slot of a live lane of a dirty quad exactly
once (the backpointers of `WFquads` make the owning quad and lane unique). -/
theorem quadWrites_count_hit (t : CacheState) (HQ : WFquads t) (g q0 i0 : Nat)
    (hq0 : q0 < 16) (hd0 : (t.qr q0).isDirty = true)
    (hi0 : i0 < GetNumVectorElements ((t.qr q0).sz))
    (hg0 : (t.qr q0).vregs i0 + 32 = g) (r : Nat) :
    (writesFrom r (joinCode (QFlushCodeOf t) (List.range 16))).count
      (GetMipsRegOffset g) = 1 := by
  have hg : g < NUM_MIPSFPUREG := by
    have h1 := ((HQ q0 hq0 hd0).2 i0 hi0).1
    simp only [NUM_MIPSFPUREG]
    omega
  rw [writesFrom_joinCode _ _ (fun q hm r1 r2 => by
      rw [QFlushCodeOf_writes t HQ q (List.mem_range.1 hm) r1,
        QFlushCodeOf_writes t HQ q (List.mem_range.1 hm) r2]),
    count_joinCode]
  have hothers : ∀ q ∈ List.range 16, q ≠ q0 →
      (writesFrom 0 (QFlushCodeOf t q)).count (GetMipsRegOffset g) = 0 := by
    intro q hm hne
    rw [QFlushCodeOf_writes t HQ q (List.mem_range.1 hm) 0]
    by_cases hd : (t.qr q).isDirty = true
    · rw [if_pos hd, count_map_eq_countP]
      refine countP_range_zero _ _ ?_
      intro i hi
      have hl := (HQ q (List.mem_range.1 hm) hd).2 i hi
      have hvne : (t.qr q).vregs i + 32 ≠ g := by
        intro hc
        have hb1 := hl.2.2.1
        have hb2 := ((HQ q0 hq0 hd0).2 i0 hi0).2.2.1
        rw [hc] at hb1
        rw [hg0] at hb2
        rw [hb1] at hb2
        have hcast : Q0 + q = Q0 + q0 := by exact_mod_cast hb2
        exact hne (by omega)
      have hlt : (t.qr q).vregs i + 32 < NUM_MIPSFPUREG := by
        have h1 := hl.1
        simp only [NUM_MIPSFPUREG]
        omega
      have hno : GetMipsRegOffsetV ((t.qr q).vregs i) ≠ GetMipsRegOffset g := by
        rw [GetMipsRegOffsetV_eq_off]
        intro hc
        exact hvne (GetMipsRegOffset_inj _ _ hlt hg hc)
      simp [hno]
    · rw [if_neg hd]
      rfl
  rw [sum_map_eq_single _ _ q0 (List.mem_range.2 hq0) (List.nodup_range 16) hothers,
    QFlushCodeOf_writes t HQ q0 hq0 0, if_pos hd0, count_map_eq_countP]
  refine countP_range_unique _ _ i0 hi0 ?_ ?_
  · have heq : GetMipsRegOffsetV ((t.qr q0).vregs i0) = GetMipsRegOffset g := by
      rw [GetMipsRegOffsetV_eq_off, hg0]
    simp [heq]
  · intro i hi hne
    have hl := (HQ q0 hq0 hd0).2 i hi
    have hvne : (t.qr q0).vregs i + 32 ≠ g := by
      intro hc
      have hb1 := hl.2.2.2
      have hb2 := ((HQ q0 hq0 hd0).2 i0 hi0).2.2.2
      rw [hc] at hb1
      rw [hg0] at hb2
      rw [hb1] at hb2
      have hcast : (i : Int) = (i0 : Int) := hb2
      exact hne (by exact_mod_cast hcast)
    have hlt : (t.qr q0).vregs i + 32 < NUM_MIPSFPUREG := by
      have h1 := hl.1
      simp only [NUM_MIPSFPUREG]
      omega
    have hno : GetMipsRegOffsetV ((t.qr q0).vregs i) ≠ GetMipsRegOffset g := by
      rw [GetMipsRegOffsetV_eq_off]
      intro hc
      exact hvne (GetMipsRegOffset_inj _ _ hlt hg hc)
    simp [hno]


/-- `FlushAll` unfolded: the three walks composed, code concatenated. -/
theorem FlushAll_fst (s : CacheState) :
    (FlushAll s).1 =
      (runList FlushR
        (runList QFlush
          (runList (fun u i => (DiscardR u i, [])) s (List.range' TEMP0 NUM_TEMPS)).1
          (List.range MAX_ARMQUADS)).1
        (List.range NUM_MIPSFPUREG)).1 := by
  delta FlushAll
  with_reducible rfl

/-- The code of `FlushAll`: the three walks' code concatenated. -/
theorem FlushAll_snd (s : CacheState) :
    (FlushAll s).2 =
      (runList (fun u i => (DiscardR u i, [])) s (List.range' TEMP0 NUM_TEMPS)).2 ++
      (runList QFlush
        (runList (fun u i => (DiscardR u i, [])) s (List.range' TEMP0 NUM_TEMPS)).1
        (List.range MAX_ARMQUADS)).2 ++
      (runList FlushR
        (runList QFlush
          (runList (fun u i => (DiscardR u i, [])) s (List.range' TEMP0 NUM_TEMPS)).1
          (List.range MAX_ARMQUADS)).1
        (List.range NUM_MIPSFPUREG)).2 := by
  delta FlushAll
  with_reducible rfl

/-- C3 (amended): from any well-formed state, `FlushAll` returns every guest
to memory, empties and cleans every scalar host record, clears the dirty bit
and `mipsVec` of every dirty quad — but a mapped, clean quad keeps its
`mipsVec` — and the emitted code writes the memory slot of each dirty,
memory-backed (non-scratch) guest exactly once and no other guest slot.
The well-formedness hypothesis is necessary: on a reachable state where a
guest is doubly resident (pure-read sharing, C1), the final guest walk
follows the guest's quad pointer and never frees the stale scalar record,
so the scalar table is not emptied. -/
theorem c3_flushall (s : CacheState) (hWF : WF s) :
    (∀ g, g < NUM_MIPSFPUREG → (((FlushAll s).1).mr g).loc = .ML_MEM) ∧
    (∀ a, a < 32 → ((FlushAll s).1).ar a = { mipsReg := -1, isDirty := false }) ∧
    (∀ q, q < 16 → (s.qr q).isDirty = true →
      ((FlushAll s).1).qr q = { s.qr q with isDirty := false, mipsVec := -1 }) ∧
    (∀ q, q < 16 → (s.qr q).isDirty = false → ((FlushAll s).1).qr q = s.qr q) ∧
    (∀ g, g < NUM_MIPSFPUREG →
      (writesFrom 0 (FlushAll s).2).count (GetMipsRegOffset g) =
        if residentDirty s g = true ∧ g < TEMP0 then 1 else 0) := by
  rw [FlushAll_fst s, FlushAll_snd s, show List.range MAX_ARMQUADS = List.range 16 from rfl]
  obtain ⟨W1, W2, W3⟩ := hWF
  have hlaneS : ∀ q, q < 16 → (s.qr q).isDirty = true →
      ∀ i, i < GetNumVectorElements ((s.qr q).sz) →
      (s.qr q).vregs i < 128 ∧
      (s.mr ((s.qr q).vregs i + 32)).loc = .ML_ARMREG ∧
      (s.mr ((s.qr q).vregs i + 32)).reg = ((Q0 + q : Nat) : Int) ∧
      (s.mr ((s.qr q).vregs i + 32)).lane = (i : Int) := by
    intro q hq16 hd i hi
    have hW3 := W3 q hq16
    have hdne : (s.qr q).mipsVec ≠ -1 := by
      intro hc
      rw [hW3.1 hc] at hd
      exact Bool.false_ne_true hd
    exact (hW3.2.2 hdne).2 i hi
  have hres1 : ∀ g ∈ List.range' TEMP0 NUM_TEMPS, (s.mr g).loc = .ML_ARMREG →
      scalarRes s g := by
    intro g hm hloc
    have hb : 160 ≤ g ∧ g < 176 := ⟨(List.mem_range'_1.1 hm).1, (List.mem_range'_1.1 hm).2⟩
    have hg : g < NUM_MIPSFPUREG := hb.2
    rcases (W1 g hg).2 hloc with ⟨hs, _⟩ | ⟨_, _, _, _, h160, _, _, _⟩
    · exact hs
    · exfalso
      have h2 : g < 160 := h160
      have h1 := hb.1
      omega
  have hARB : ARBack s := fun a ha hne => (W2 a ha).2 hne
  obtain ⟨D1, D2, D3, D4, D5, D6, D7, D8⟩ :=
    discardWalk_spec (List.range' TEMP0 NUM_TEMPS) s (by decide) hres1 hARB
  set t1 : CacheState :=
    (runList (fun u i => (DiscardR u i, [])) s (List.range' TEMP0 NUM_TEMPS)).1 with ht1
  have HQ1 : WFquads t1 := by
    intro q hq16 hd
    rw [D3] at hd
    refine ⟨?_, ?_⟩
    · have hW3 := W3 q hq16
      have hdne : (s.qr q).mipsVec ≠ -1 := by
        intro hc
        rw [hW3.1 hc] at hd
        exact Bool.false_ne_true hd
      have h4 : ¬ q < 4 := fun h => hdne (hW3.2.1 h)
      simp only [MappableQ, ge_iff_le, decide_eq_true_eq]
      omega
    · rw [D3]
      intro i hi
      have hl := hlaneS q hq16 hd i hi
      have hnm : ((s.qr q).vregs i + 32) ∉ List.range' TEMP0 NUM_TEMPS := by
        intro hm
        have hb : (160 : Nat) ≤ (s.qr q).vregs i + 32 := (List.mem_range'_1.1 hm).1
        have h1 := hl.1
        omega
      rw [D2 _ hnm]
      exact hl
  obtain ⟨Q1, Q2, Q3, Q4, Q5, Q6, Q7, Q8⟩ :=
    quadWalk_spec (List.range 16) t1 (fun q hm => List.mem_range.1 hm)
      (List.nodup_range 16) HQ1
  set t2 : CacheState := (runList QFlush t1 (List.range 16)).1 with ht2
  have hq2 : ∀ q, q < 16 → (t2.qr q).isDirty = false := by
    intro q hq16
    by_cases hd : (t1.qr q).isDirty = true
    · rw [Q1 q (List.mem_range.2 hq16) hd]
    · have hdf : (t1.qr q).isDirty = false := by
        revert hd
        cases (t1.qr q).isDirty <;> simp
      rw [Q2 q (List.mem_range.2 hq16) hdf]
      exact hdf
  have hmrTemp : ∀ g, TEMP0 ≤ g → g < NUM_MIPSFPUREG → (t2.mr g).loc = .ML_MEM := by
    intro g hT hg
    have hmiss : ∀ q ∈ List.range 16, (t1.qr q).isDirty = true →
        ∀ i ∈ List.range (GetNumVectorElements ((t1.qr q).sz)),
          32 + (t1.qr q).vregs i ≠ g := by
      intro q hm hd i hi
      have h1 := ((HQ1 q (List.mem_range.1 hm) hd).2 i (List.mem_range.1 hi)).1
      have hT' : (160 : Nat) ≤ g := hT
      omega
    rw [Q6 g hmiss]
    exact D1 g (List.mem_range'_1.2 ⟨hT, hg⟩)
  have hmr2_of_miss : ∀ g, g < TEMP0 →
      (∀ q, q < 16 → (s.qr q).isDirty = true →
        ∀ i, i < GetNumVectorElements ((s.qr q).sz) → 32 + (s.qr q).vregs i ≠ g) →
      t2.mr g = s.mr g := by
    intro g hgT hm
    have hmiss : ∀ q ∈ List.range 16, (t1.qr q).isDirty = true →
        ∀ i ∈ List.range (GetNumVectorElements ((t1.qr q).sz)),
          32 + (t1.qr q).vregs i ≠ g := by
      intro q hq hd i hi
      rw [D3] at hd hi ⊢
      exact hm q (List.mem_range.1 hq) hd i (List.mem_range.1 hi)
    rw [Q6 g hmiss]
    refine D2 g ?_
    intro hmem
    have h1 : (160 : Nat) ≤ g := (List.mem_range'_1.1 hmem).1
    have h2 : g < 160 := hgT
    omega
  have hmr2_of_hit : ∀ g q, q < 16 → (s.qr q).isDirty = true →
      (∃ i, i < GetNumVectorElements ((s.qr q).sz) ∧ 32 + (s.qr q).vregs i = g) →
      (t2.mr g).loc = .ML_MEM := by
    intro g q hq16 hd hex0
    obtain ⟨i, hi, hig⟩ := hex0
    have hd1 : (t1.qr q).isDirty = true := by
      rw [D3]
      exact hd
    have hex : ∃ i ∈ List.range (GetNumVectorElements ((t1.qr q).sz)),
        32 + (t1.qr q).vregs i = g := by
      rw [D3]
      exact ⟨i, List.mem_range.2 hi, hig⟩
    rw [Q5 g q (List.mem_range.2 hq16) hd1 hex]
  have harLow : ∀ a, a < 32 → ∀ g0 : Nat, g0 < TEMP0 → (s.ar a).mipsReg = (g0 : Int) →
      t2.ar a = s.ar a := by
    intro a ha g0 hg0 hname
    rw [Q4]
    refine D6 a ha ?_
    intro g hm
    rw [hname]
    have h1 : (160 : Nat) ≤ g := (List.mem_range'_1.1 hm).1
    have hg0' : g0 < 160 := hg0
    intro hc
    have he : g0 = g := by exact_mod_cast hc
    omega
  have harNone : ∀ a, a < 32 → (s.ar a).mipsReg = -1 → t2.ar a = s.ar a := by
    intro a ha hname
    rw [Q4]
    refine D6 a ha ?_
    intro g hm
    rw [hname]
    intro hc
    omega
  have harTemp : ∀ a, a < 32 → ∀ g0 : Nat, TEMP0 ≤ g0 → g0 < NUM_MIPSFPUREG →
      (s.ar a).mipsReg = (g0 : Int) → t2.ar a = { mipsReg := -1, isDirty := false } := by
    intro a ha g0 h1 h2 hname
    rw [Q4]
    exact D5 a ha g0 (List.mem_range'_1.2 ⟨h1, h2⟩) hname
  have HS2 : WFscalars t2 := by
    refine ⟨?_, ?_, hq2⟩
    · intro g hg hloc
      by_cases hT : TEMP0 ≤ g
      · rw [hmrTemp g hT hg] at hloc
        exact absurd hloc (by decide)
      · push_neg at hT
        by_cases hhit : ∃ q, q < 16 ∧ (s.qr q).isDirty = true ∧
            ∃ i, i < GetNumVectorElements ((s.qr q).sz) ∧ 32 + (s.qr q).vregs i = g
        · obtain ⟨q, hq16, hd, hex⟩ := hhit
          rw [hmr2_of_hit g q hq16 hd hex] at hloc
          exact absurd hloc (by decide)
        · push_neg at hhit
          have hmr : t2.mr g = s.mr g := hmr2_of_miss g hT hhit
          rw [hmr] at hloc
          rcases (W1 g hg).2 hloc with ⟨hs, _⟩ | ⟨hqr, _, _, _, _, _, _, _⟩
          · left
            obtain ⟨h0, h32, hback⟩ := hs
            show 0 ≤ (t2.mr g).reg ∧ (t2.mr g).reg < 32 ∧
              (t2.ar (t2.mr g).reg.toNat).mipsReg = (g : Int)
            rw [hmr]
            refine ⟨h0, h32, ?_⟩
            rw [harLow (s.mr g).reg.toNat (by omega) g hT hback]
            exact hback
          · right
            show (Q0 : Int) ≤ (t2.mr g).reg ∧ (t2.mr g).reg ≤ (Q0 : Int) + 15
            rw [hmr]
            exact hqr
    · intro a ha
      by_cases hn : (s.ar a).mipsReg = -1
      · have hkeep := harNone a ha hn
        rw [hkeep]
        constructor
        · intro _
          exact (W2 a ha).1 hn
        · intro hne
          exact absurd hn hne
      · obtain ⟨hge0, hlt, hlocb, hregb⟩ := (W2 a ha).2 hn
        have hg0 : (s.ar a).mipsReg = (((s.ar a).mipsReg.toNat : Nat) : Int) :=
          (Int.toNat_of_nonneg hge0).symm
        by_cases hT : TEMP0 ≤ (s.ar a).mipsReg.toNat
        · have hltN : (s.ar a).mipsReg.toNat < NUM_MIPSFPUREG := by
            have hlt' := hlt
            simp only [NUM_MIPSFPUREG] at hlt' ⊢
            omega
          have hclear := harTemp a ha (s.ar a).mipsReg.toNat hT hltN hg0
          rw [hclear]
          constructor
          · intro _
            rfl
          · intro hne
            exact absurd rfl hne
        · push_neg at hT
          have hkeep := harLow a ha (s.ar a).mipsReg.toNat hT hg0
          rw [hkeep]
          constructor
          · intro hc
            exact absurd hc hn
          · intro _
            have hmr : t2.mr (s.ar a).mipsReg.toNat = s.mr (s.ar a).mipsReg.toNat := by
              refine hmr2_of_miss _ hT ?_
              intro q hq16 hd i hi hc
              have hl := hlaneS q hq16 hd i hi
              have hc' : (s.qr q).vregs i + 32 = (s.ar a).mipsReg.toNat := by omega
              rw [hc'] at hl
              have h1 := hl.2.2.1
              rw [hregb] at h1
              have h2 : a = Q0 + q := by exact_mod_cast h1
              have h2' : a = 80 + q := h2
              omega
            refine ⟨hge0, hlt, ?_, ?_⟩
            · rw [hmr]
              exact hlocb
            · rw [hmr]
              exact hregb
  obtain ⟨P1, P2, P3, P4, P5, P6, P7, P8⟩ :=
    flushGuests_spec (List.range NUM_MIPSFPUREG) t2 (fun g hm => List.mem_range.1 hm)
      (List.nodup_range NUM_MIPSFPUREG) HS2
  set t3 : CacheState := (runList FlushR t2 (List.range NUM_MIPSFPUREG)).1 with ht3
  refine ⟨?_, ?_, ?_, ?_, ?_⟩
  · intro g hg
    exact P1 g (List.mem_range.2 hg)
  · intro a ha
    by_cases hn : (t2.ar a).mipsReg = -1
    · have hkeep : t3.ar a = t2.ar a := by
        refine P3 a ha ?_
        intro g hm
        rw [hn]
        intro hc
        omega
      rw [hkeep]
      have hd := (HS2.2.1 a ha).1 hn
      rw [← hn, ← hd]
    · have hge0 := ((HS2.2.1 a ha).2 hn).1
      have hg0 : (t2.ar a).mipsReg = (((t2.ar a).mipsReg.toNat : Nat) : Int) :=
        (Int.toNat_of_nonneg hge0).symm
      have hltN : (t2.ar a).mipsReg.toNat < NUM_MIPSFPUREG := by
        have hlt := ((HS2.2.1 a ha).2 hn).2.1
        simp only [NUM_MIPSFPUREG] at hlt ⊢
        omega
      exact P4 a ha (t2.ar a).mipsReg.toNat (List.mem_range.2 hltN) hg0
  · intro q hq16 hd
    rw [P6]
    have hd1 : (t1.qr q).isDirty = true := by
      rw [D3]
      exact hd
    rw [Q1 q (List.mem_range.2 hq16) hd1, D3]
  · intro q hq16 hd
    rw [P6]
    have hd1 : (t1.qr q).isDirty = false := by
      rw [D3]
      exact hd
    rw [Q2 q (List.mem_range.2 hq16) hd1, D3]
  · intro g hg
    rw [D7, List.nil_append, Q7, P7, writesFrom_append, List.count_append]
    have hconv : (∀ q, q < 16 → (s.qr q).isDirty = true →
        ∀ i, i < GetNumVectorElements ((s.qr q).sz) → 32 + (s.qr q).vregs i ≠ g) →
        ∀ q, q < 16 → (t1.qr q).isDirty = true →
        ∀ i, i < GetNumVectorElements ((t1.qr q).sz) → (t1.qr q).vregs i + 32 ≠ g := by
      intro hm q hq16 hd i hi hc
      rw [D3] at hd hi hc
      exact hm q hq16 hd i hi (by omega)
    by_cases hT : TEMP0 ≤ g
    · have hr0 : ¬(residentDirty s g = true ∧ g < TEMP0) := by
        intro hcc
        have hT' : (160 : Nat) ≤ g := hT
        have hlt' : g < 160 := hcc.2
        omega
      have hmissT : ∀ q, q < 16 → (t1.qr q).isDirty = true →
          ∀ i, i < GetNumVectorElements ((t1.qr q).sz) → (t1.qr q).vregs i + 32 ≠ g := by
        intro q hq16 hd i hi hc
        have h1 := ((HQ1 q hq16 hd).2 i hi).1
        have hT' : (160 : Nat) ≤ g := hT
        omega
      have hrd2 : ¬ residentDirty t2 g = true := by
        unfold residentDirty
        rw [hmrTemp g hT hg]
        simp
      rw [quadWrites_count_miss t1 HQ1 g hg hmissT, guestWrites_count t2 hq2 g hg,
        if_neg hrd2, if_neg hr0]
    · push_neg at hT
      by_cases hloc : (s.mr g).loc = .ML_ARMREG
      · rcases (W1 g hg).2 hloc with ⟨hs, _⟩ |
          ⟨hqr, h4q, hmv, h32g, h160, hl0, hln, hback⟩
        · obtain ⟨h0, h32, hback⟩ := hs
          have hnr : ¬((Q0 : Int) ≤ (s.mr g).reg ∧ (s.mr g).reg ≤ (Q0 : Int) + 15) := by
            intro hcc
            have hc1 := hcc.1
            simp only [Q0] at hc1
            omega
          have hrds : residentDirty s g = (s.ar (s.mr g).reg.toNat).isDirty := by
            unfold residentDirty
            rw [hloc, if_neg hnr]
            simp
          have hmissS : ∀ q, q < 16 → (s.qr q).isDirty = true →
              ∀ i, i < GetNumVectorElements ((s.qr q).sz) →
                32 + (s.qr q).vregs i ≠ g := by
            intro q hq16 hd i hi hc
            have hl := hlaneS q hq16 hd i hi
            have hc' : (s.qr q).vregs i + 32 = g := by omega
            rw [hc'] at hl
            have h1 := hl.2.2.1
            have h32' := h32
            rw [h1] at h32'
            have h2 : (Q0 + q : Nat) < 32 := by exact_mod_cast h32'
            have h2' : (80 + q : Nat) < 32 := h2
            omega
          have ha32 : (s.mr g).reg.toNat < 32 := by omega
          have hkeep : t2.ar (s.mr g).reg.toNat = s.ar (s.mr g).reg.toNat :=
            harLow _ ha32 g hT hback
          have hmr : t2.mr g = s.mr g := hmr2_of_miss g hT hmissS
          have hrdt : residentDirty t2 g = (s.ar (s.mr g).reg.toNat).isDirty := by
            unfold residentDirty
            rw [hmr, hloc, if_neg hnr, hkeep]
            simp
          rw [quadWrites_count_miss t1 HQ1 g hg (hconv hmissS),
            guestWrites_count t2 hq2 g hg, hrdt, hrds]
          by_cases hdd : (s.ar (s.mr g).reg.toNat).isDirty = true
          · rw [if_pos hdd, if_pos ⟨hdd, hT⟩]
          · rw [if_neg hdd, if_neg (fun hcc => hdd hcc.1)]
        · have hqr' : (Q0 : Int) ≤ (s.mr g).reg ∧ (s.mr g).reg ≤ (Q0 : Int) + 15 := hqr
          obtain ⟨q0, hq0eq⟩ : ∃ n, ((s.mr g).reg - (Q0 : Int)).toNat = n := ⟨_, rfl⟩
          rw [hq0eq] at h4q hmv hln hback
          have hq016 : q0 < 16 := by
            have h1 := hqr.1
            have h2 := hqr.2
            have he := hq0eq
            simp only [Q0] at h1 h2 he
            omega
          have hregq : (s.mr g).reg = ((Q0 + q0 : Nat) : Int) := by
            have h1 := hqr.1
            have he := hq0eq
            simp only [Q0] at h1 he ⊢
            omega
          by_cases hd : (s.qr q0).isDirty = true
          · have hrd : residentDirty s g = true := by
              unfold residentDirty
              rw [hloc, if_pos hqr', hq0eq, hd]
              simp
            have hd1 : (t1.qr q0).isDirty = true := by
              rw [D3]
              exact hd
            have hi0 : (s.mr g).lane.toNat < GetNumVectorElements ((s.qr q0).sz) := by
              omega
            have hi0t : (s.mr g).lane.toNat < GetNumVectorElements ((t1.qr q0).sz) := by
              rw [D3]
              exact hi0
            have hit : (t1.qr q0).vregs (s.mr g).lane.toNat + 32 = g := by
              rw [D3]
              exact hback
            have hloc2 : (t2.mr g).loc = .ML_MEM :=
              hmr2_of_hit g q0 hq016 hd ⟨(s.mr g).lane.toNat, hi0, by omega⟩
            have hrd2 : ¬ residentDirty t2 g = true := by
              unfold residentDirty
              rw [hloc2]
              simp
            rw [quadWrites_count_hit t1 HQ1 g q0 (s.mr g).lane.toNat hq016 hd1 hi0t hit,
              guestWrites_count t2 hq2 g hg, if_neg hrd2, if_pos ⟨hrd, hT⟩]
          · have hdf : (s.qr q0).isDirty = false := by
              revert hd
              cases (s.qr q0).isDirty <;> simp
            have hrd : residentDirty s g = false := by
              unfold residentDirty
              rw [hloc, if_pos hqr', hq0eq, hdf]
              simp
            have hmissS : ∀ q, q < 16 → (s.qr q).isDirty = true →
                ∀ i, i < GetNumVectorElements ((s.qr q).sz) →
                  32 + (s.qr q).vregs i ≠ g := by
              intro q hq16 hdq i hi hc
              have hl := hlaneS q hq16 hdq i hi
              have hc' : (s.qr q).vregs i + 32 = g := by omega
              rw [hc'] at hl
              have h1 := hl.2.2.1
              rw [hregq] at h1
              have h2 : (Q0 + q0 : Nat) = (Q0 + q : Nat) := by exact_mod_cast h1
              have h2' : (80 + q0 : Nat) = 80 + q := h2
              have hqq : q = q0 := by omega
              rw [hqq, hdf] at hdq
              exact Bool.false_ne_true hdq
            have hmr : t2.mr g = s.mr g := hmr2_of_miss g hT hmissS
            have hrd2 : residentDirty t2 g = false := by
              unfold residentDirty
              rw [hmr, hloc, if_pos hqr', hq0eq, hq2 q0 hq016]
              simp
            rw [quadWrites_count_miss t1 HQ1 g hg (hconv hmissS),
              guestWrites_count t2 hq2 g hg, hrd2, hrd]
            simp
      · have hrd : residentDirty s g = false := by
          unfold residentDirty
          rw [decide_eq_false hloc]
          simp
        have hmissS : ∀ q, q < 16 → (s.qr q).isDirty = true →
            ∀ i, i < GetNumVectorElements ((s.qr q).sz) →
              32 + (s.qr q).vregs i ≠ g := by
          intro q hq16 hdq i hi hc
          have hl := hlaneS q hq16 hdq i hi
          have hc' : (s.qr q).vregs i + 32 = g := by omega
          rw [hc'] at hl
          exact hloc hl.2.1
        have hmr : t2.mr g = s.mr g := hmr2_of_miss g hT hmissS
        have hrd2 : residentDirty t2 g = false := by
          unfold residentDirty
          rw [hmr, decide_eq_false hloc]
          simp
        rw [quadWrites_count_miss t1 HQ1 g hg (hconv hmissS),
          guestWrites_count t2 hq2 g hg, hrd2, hrd]
        simp

set_option maxRecDepth 40000 in
/-- Counterexample for C3, refuting the original claim on two reachable
runs of public operations.  (i) `Start`, then a clean `V_Single` `QMapReg`
of vector 0 onto quad 4, then `FlushAll`: the quad was mapped but clean, so
`FlushAll` leaves its `mipsVec` registered (0, not the NONE the claim
demands for every quad record).  (ii) `Start`, `MapReg` of guest 37
(lane 5), then a clean `V_Single` `QMapReg` of that lane: guest 37 is now
doubly resident (the well-formedness discipline fails on this state), and
`FlushAll` leaves stale scalar record 4 still naming guest 37 — the
closing sanity walk of the source only logs the failure — so the scalar
table is not emptied either. -/
theorem c3_counterexample :
    ((QMapReg state0N 0 .V_Single (fun _ => 5) MAP_NORMAL).map
        (fun x => (((FlushAll x.1).1.qr 4).mipsVec,
                   decide (((FlushAll x.1).1.qr 4).mipsVec = -1))) =
      some (0, false)) ∧
    ((QMapReg (MapReg state0N 37 MAP_NORMAL).1 0 .V_Single (fun _ => 5) MAP_NORMAL).map
        (fun x => (((FlushAll x.1).1.ar 4).mipsReg,
                   decide (((FlushAll x.1).1.ar 4).mipsReg = -1),
                   decide (WF x.1))) =
      some (37, false, false)) := by
  exact ⟨by decide, by decide⟩

set_option maxRecDepth 40000 in
/-- Witness for C3 (amended) at the fresh state: the hypothesis `WF state0`
holds and the theorem applies. -/
theorem c3_flushall_witness :
    WF state0 ∧
    ((∀ g, g < NUM_MIPSFPUREG → (((FlushAll state0).1).mr g).loc = .ML_MEM) ∧
     (∀ a, a < 32 → ((FlushAll state0).1).ar a = { mipsReg := -1, isDirty := false }) ∧
     (∀ q, q < 16 → (state0.qr q).isDirty = true →
       ((FlushAll state0).1).qr q = { state0.qr q with isDirty := false, mipsVec := -1 }) ∧
     (∀ q, q < 16 → (state0.qr q).isDirty = false →
       ((FlushAll state0).1).qr q = state0.qr q) ∧
     (∀ g, g < NUM_MIPSFPUREG →
       (writesFrom 0 (FlushAll state0).2).count (GetMipsRegOffset g) =
         if residentDirty state0 g = true ∧ g < TEMP0 then 1 else 0)) :=
  ⟨by decide, c3_flushall state0 (by decide)⟩

end ArmRegCacheFPU
